import Mathlib

/-!
Verification development for the evolutionary core of the Genetic-Dots
program (`main.py`).

Embedding conventions:
* All numeric quantities are exact rationals (`ℚ`); machine floats are
  idealized as exact arithmetic.
* The floating-point square root is threaded explicitly as a function
  parameter `sf : ℚ → ℚ` wherever its numeric value enters the state
  (velocity rescaling, gene normalization).  Comparisons of a Euclidean
  norm against a nonnegative constant (`norm v < 20`, `norm v > 15`) are
  embedded as the equivalent comparisons of squared norms
  (`normSq v < 400`, `normSq v > 225`), which keeps them exact and
  decidable without a square root.
* Division by zero follows Lean's `x / 0 = 0` convention; every place
  where the source can actually divide by zero is tracked by an explicit
  divisor definition (`Dot.fitnessDivisor`, `geneDivisor`) so that the
  zero-divisor situations are stated directly about those divisors.
* The module-level random generator (reseeded per call in the source) is
  modeled by explicit oracle streams of drawn values.
* Python's `uniform(0, s)` is `0 + (s - 0) * random()` with
  `random() ∈ [0, 1)`; it is embedded as `s * u` with a parameter
  `0 ≤ u < 1`.
-/

namespace GeneticDots

/-- Screen height (`height = 800` in `main.py`). -/
def height : ℚ := 800

/-- Screen width (`width = 1600`). -/
def width : ℚ := 1600

/-- Velocity limit (`dot_max_velocity = 15`). -/
def dotMaxVelocity : ℚ := 15

/-- Mutation likelihood (`mutation_rate = 0.01`). -/
def mutationRate : ℚ := 1/100

/-- Axis-aligned rectangle, mirroring the source tuples `(x, y, w, h)`. -/
structure Rect where
  x : ℚ
  y : ℚ
  w : ℚ
  h : ℚ

/-- First obstacle, `rect_1 = (0, 200, width/2.5, 50)`. -/
def rect1 : Rect := ⟨0, 200, width / 2.5, 50⟩

/-- Second obstacle, `rect_2 = (width/2, 500, width, 50)`. -/
def rect2 : Rect := ⟨width / 2, 500, width, 50⟩

/-- Goal position, `goal = [20, width/2]`. -/
def goal : ℚ × ℚ := (20, width / 2)

/-- Squared Euclidean norm of a 2-vector; the source computes
`(vec**2).sum()` and takes `** 0.5` of it where the norm itself is needed. -/
def normSq (v : ℚ × ℚ) : ℚ := v.1 ^ 2 + v.2 ^ 2

/-- Divisor used when normalizing a sampled vector: the (floating) square
root of its squared magnitude, `mag = (vec**2).sum()**0.5`. -/
def geneDivisor (sf : ℚ → ℚ) (v : ℚ × ℚ) : ℚ := sf (normSq v)

/-- Normalization of a sampled vector, `vec / mag` (componentwise), from
`Brain.randomize` and `Brain.mutate`.  The source has no zero-magnitude
guard: the division is performed unconditionally. -/
def sampleGene (sf : ℚ → ℚ) (v : ℚ × ℚ) : ℚ × ℚ :=
  (v.1 / geneDivisor sf v, v.2 / geneDivisor sf v)

/-- Genome: the series of direction vectors together with the step cursor
(class `Brain`). -/
structure Brain where
  directions : List (ℚ × ℚ)
  step : ℕ
deriving DecidableEq

/-- Gene list produced by `Brain.randomize`: one normalized sampled vector
per slot, with the gaussian draws supplied by the stream `gs`. -/
def Brain.randomize (sf : ℚ → ℚ) (gs : ℕ → ℚ × ℚ) (size : ℕ) : List (ℚ × ℚ) :=
  (List.range size).map (fun i => sampleGene sf (gs i))

/-- State of `Brain(size)` right after `__init__`: the zero array is
immediately overwritten by `randomize`, and the cursor starts at 0. -/
def Brain.init (sf : ℚ → ℚ) (size : ℕ) (gs : ℕ → ℚ × ℚ) : Brain :=
  { directions := Brain.randomize sf gs size, step := 0 }

/-- Method `Brain.clone`: builds a fresh `Brain` of the same length (whose
random contents are then overwritten by `np.copyto` with this brain's
directions); the cursor of the fresh brain stays 0. -/
def Brain.clone (sf : ℚ → ℚ) (gs : ℕ → ℚ × ℚ) (b : Brain) : Brain :=
  { Brain.init sf b.directions.length gs with directions := b.directions }

/-- Method `Brain.mutate`: for each index draw `uniform(0,1)` (stream `rs`)
and, when it is below `mutation_rate`, replace the gene by a freshly sampled
normalized vector (gaussian draws from `gs`). -/
def Brain.mutate (sf : ℚ → ℚ) (rs : ℕ → ℚ) (gs : ℕ → ℚ × ℚ) (b : Brain) : Brain :=
  { b with directions := (List.range b.directions.length).map (fun i =>
      if rs i < mutationRate then sampleGene sf (gs i) else b.directions.getD i (0, 0)) }

/-- Agent (class `Dot`): genome, kinematic state, status flags, fitness. -/
structure Dot where
  brain : Brain
  pos : ℚ × ℚ
  vel : ℚ × ℚ
  acc : ℚ × ℚ
  dead : Bool
  fitness : ℚ
  reached_goal : Bool
  is_best : Bool
deriving DecidableEq

/-- Starting position of every dot, `[height - 125, width * 0.95]`. -/
def startPos : ℚ × ℚ := (height - 125, width * 0.95)

/-- State of `Dot()` right after `__init__` (brain of length 400). -/
def Dot.init (sf : ℚ → ℚ) (gs : ℕ → ℚ × ℚ) : Dot :=
  { brain := Brain.init sf 400 gs, pos := startPos, vel := (0, 0), acc := (0, 0),
    dead := false, fitness := 0, reached_goal := false, is_best := false }

/-- Velocity limiting step of `Dot.move`: when the magnitude exceeds
`dot_max_velocity` (compared at the squared level), rescale the velocity by
`dot_max_velocity / mag` with `mag` the floating square root of the squared
magnitude. -/
def capVel (sf : ℚ → ℚ) (v : ℚ × ℚ) : ℚ × ℚ :=
  if dotMaxVelocity ^ 2 < normSq v then (dotMaxVelocity / sf (normSq v)) • v else v

/-- Method `Dot.move`.  Returns the new dot state together with the number
of `dead_count` increments performed (the global counter is modeled
explicitly).  Note that in the exhaustion branch the method does not stop:
it still adds the stale acceleration to the velocity, caps it, and moves
the position. -/
def Dot.move (sf : ℚ → ℚ) (d : Dot) : Dot × ℕ :=
  let s1 : Dot × ℕ :=
    if d.brain.step < d.brain.directions.length then
      ({ d with acc := d.brain.directions.getD d.brain.step (0, 0),
                brain := { d.brain with step := d.brain.step + 1 } }, 0)
    else
      ({ d with dead := true }, 1)
  let v := capVel sf (s1.1.vel + s1.1.acc)
  ({ s1.1 with vel := v, pos := s1.1.pos + v }, s1.2)

/-- Out-of-bounds test of `Dot.update`: within 2 pixels of any window edge. -/
def outOfBounds (p : ℚ × ℚ) : Prop :=
  p.1 < 2 ∨ p.2 < 2 ∨ height - 2 < p.1 ∨ width - 2 < p.2

instance : DecidablePred outOfBounds := fun p => by unfold outOfBounds; infer_instance

/-- Goal test of `Dot.update`: `np.linalg.norm(goal - pos) < 20`, embedded
at the squared level as `normSq (goal - pos) < 400`. -/
def nearGoal (p : ℚ × ℚ) : Prop := normSq (goal - p) < 400

instance : DecidablePred nearGoal := fun p => by unfold nearGoal; infer_instance

/-- Obstacle containment test of `Dot.update`:
`rect[1] < pos[0] < rect[1] + rect[3]` and `rect[0] < pos[1] < rect[0] + rect[2]`. -/
def inRect (r : Rect) (p : ℚ × ℚ) : Prop :=
  r.y < p.1 ∧ p.1 < r.y + r.h ∧ r.x < p.2 ∧ p.2 < r.x + r.w

instance (r : Rect) : DecidablePred (inRect r) := fun p => by unfold inRect; infer_instance

/-- Method `Dot.update`.  Returns the new dot state together with the
`dead_count` and `goal_count` increments performed.  The body runs only for
a dot with both status flags clear; after `move`, the four termination
checks run as an `elif` chain (note that they run even when `move` itself
has just set the dead flag for genome exhaustion). -/
def Dot.update (sf : ℚ → ℚ) (d : Dot) : Dot × ℕ × ℕ :=
  if d.dead = false ∧ d.reached_goal = false then
    let m := Dot.move sf d
    if outOfBounds m.1.pos then ({ m.1 with dead := true }, m.2 + 1, 0)
    else if nearGoal m.1.pos then ({ m.1 with reached_goal := true }, m.2, 1)
    else if inRect rect1 m.1.pos then ({ m.1 with dead := true }, m.2 + 1, 0)
    else if inRect rect2 m.1.pos then ({ m.1 with dead := true }, m.2 + 1, 0)
    else (m.1, m.2, 0)
  else (d, 0, 0)

/-- Divisor of the non-reached fitness formula: the squared distance from
the final position to the goal (`distance_to_goal ** 2`). -/
def Dot.fitnessDivisor (d : Dot) : ℚ := normSq (goal - d.pos)

/-- Method `Dot.calculate_fitness`: `1/16 + 1000/step**2` for a dot that
reached the goal, else `1 / distance_to_goal**2` with no guard on the
divisor. -/
def Dot.calculate_fitness (d : Dot) : Dot :=
  if d.reached_goal then
    { d with fitness := 1/16 + 1000 / ((d.brain.step : ℚ)) ^ 2 }
  else
    { d with fitness := 1 / d.fitnessDivisor }

/-- Method `Dot.get_baby`: a fresh `Dot()` (random brain discarded) whose
brain is replaced by a clone of the parent's brain. -/
def Dot.get_baby (sf : ℚ → ℚ) (gs : ℕ → ℚ × ℚ) (d : Dot) : Dot :=
  { Dot.init sf gs with brain := Brain.clone sf gs d.brain }

/-- Freshly started dot carrying a given gene list (the common shape of
`Dot.init` and `Dot.get_baby` results): start position, zero velocity and
acceleration, cursor 0, both flags clear, fitness 0. -/
def mkFresh (ds : List (ℚ × ℚ)) (b : Bool) : Dot :=
  { brain := { directions := ds, step := 0 }, pos := startPos, vel := (0, 0),
    acc := (0, 0), dead := false, fitness := 0, reached_goal := false, is_best := b }

/-- Default dot used to totalize list indexing where the source would
raise on an out-of-range index. -/
def dfltDot : Dot := mkFresh [] false

theorem get_baby_eq_mkFresh (sf : ℚ → ℚ) (gs : ℕ → ℚ × ℚ) (d : Dot) :
    Dot.get_baby sf gs d = mkFresh d.brain.directions false := by
  simp [Dot.get_baby, Dot.init, Brain.clone, Brain.init, mkFresh]

theorem dot_init_eq_mkFresh (sf : ℚ → ℚ) (gs : ℕ → ℚ × ℚ) :
    Dot.init sf gs = mkFresh (Brain.randomize sf gs 400) false := by
  simp [Dot.init, Brain.init, mkFresh]

/-- Population state (class `Population`), together with the module-level
counters `dead_count` and `goal_count` which the methods mutate. -/
structure Pop where
  fitness_sum : ℚ
  gen : ℕ
  best_dot : ℕ
  min_step : ℕ
  dots : List Dot
  dead_count : ℕ
  goal_count : ℕ
deriving DecidableEq

/-- State of `Population(size)` right after `__init__` (with the counters
at their initial module-level value 0): `size` fresh dots, generation 1,
`min_step = 400`. -/
def popInit (sf : ℚ → ℚ) (n : ℕ) (gs : ℕ → ℕ → ℚ × ℚ) : Pop :=
  { fitness_sum := 0, gen := 1, best_dot := 0, min_step := 400,
    dots := (List.range n).map (fun i => Dot.init sf (gs i)),
    dead_count := 0, goal_count := 0 }

/-- Per-dot body of the loop in `Population.update`: a dot whose cursor
exceeds `min_step` is killed outright (incrementing `dead_count` whatever
its current flags are); otherwise `Dot.update` runs. -/
def budgetStep (sf : ℚ → ℚ) (M : ℕ) (d : Dot) : Dot × ℕ × ℕ :=
  if M < d.brain.step then ({ d with dead := true }, 1, 0)
  else Dot.update sf d

/-- Method `Population.update`: run `budgetStep` on every dot, accumulating
the counter increments into the module-level counters. -/
def Pop.update (sf : ℚ → ℚ) (p : Pop) : Pop :=
  let res := p.dots.map (budgetStep sf p.min_step)
  { p with dots := res.map (fun x => x.1),
           dead_count := p.dead_count + (res.map (fun x => x.2.1)).sum,
           goal_count := p.goal_count + (res.map (fun x => x.2.2)).sum }

/-- Method `Population.calculate_fitness`: recompute every dot's fitness. -/
def Pop.calculate_fitness (p : Pop) : Pop :=
  { p with dots := p.dots.map Dot.calculate_fitness }

/-- Method `Population.all_dots_dead`: true iff no dot has both flags
clear. -/
def Pop.all_dots_dead (p : Pop) : Bool :=
  p.dots.all (fun d => d.dead || d.reached_goal)

/-- Loop of `Population.set_best_dot`: scan the dots in index order,
keeping the index of the strictly greatest fitness seen so far, starting
from `max_fitness = 0`, `max_index = 0`. -/
def bestScan (l : List Dot) (i : ℕ) (mi : ℕ) (mf : ℚ) : ℕ × ℚ :=
  match l with
  | [] => (mi, mf)
  | d :: ds => if mf < d.fitness then bestScan ds (i + 1) i d.fitness
               else bestScan ds (i + 1) mi mf

/-- Index computed by `Population.set_best_dot`. -/
def bestIndex (l : List Dot) : ℕ := (bestScan l 0 0 0).1

/-- Method `Population.set_best_dot`: record the best index, and when the
best dot reached the goal, reset `min_step` to its cursor value. -/
def Pop.set_best_dot (p : Pop) : Pop :=
  let p1 := { p with best_dot := bestIndex p.dots }
  if (p1.dots.getD p1.best_dot dfltDot).reached_goal then
    { p1 with min_step := (p1.dots.getD p1.best_dot dfltDot).brain.step }
  else p1

/-- Method `Population.calculate_fitness_sum`. -/
def Pop.calculate_fitness_sum (p : Pop) : Pop :=
  { p with fitness_sum := (p.dots.map Dot.fitness).sum }

/-- Walk of `Population.select_parent`: accumulate the running fitness sum
and return the first dot at which it strictly exceeds the drawn value;
falling off the end models the source's trailing `return 0` (a non-dot
sentinel) as `none`. -/
def selectGo (l : List Dot) (acc : ℚ) (r : ℚ) : Option Dot :=
  match l with
  | [] => none
  | d :: ds => if r < acc + d.fitness then some d else selectGo ds (acc + d.fitness) r

/-- Selection walk over a given cohort with a given total: the drawn value
is `uniform(0, s)`, embedded as `s * u` with `u` the underlying
`random()` draw. -/
def selectFrom (l : List Dot) (s : ℚ) (u : ℚ) : Option Dot :=
  selectGo l 0 (s * u)

/-- Method `Population.select_parent`: roulette selection over the current
dots using the stored `fitness_sum`. -/
def Pop.select_parent (p : Pop) (u : ℚ) : Option Dot :=
  selectFrom p.dots p.fitness_sum u

/-- Oracle streams feeding one generation boundary: `selU` are the
`random()` draws behind the `uniform(0, fitness_sum)` calls of
`select_parent` (one per offspring slot), `eliteG` and `slotG` the gaussian
draws of the discarded fresh brains built inside `get_baby`, and `mutR`,
`mutG` the per-dot mutation draws of `mutate_babies`. -/
structure Oracle where
  selU : ℕ → ℚ
  eliteG : ℕ → ℚ × ℚ
  slotG : ℕ → ℕ → ℚ × ℚ
  mutR : ℕ → ℕ → ℚ
  mutG : ℕ → ℕ → ℚ × ℚ

/-- Validity of an oracle: the `random()` draws behind `uniform` lie in
`[0, 1)`, as CPython's generator guarantees. -/
def Oracle.valid (O : Oracle) : Prop := ∀ i, 0 ≤ O.selU i ∧ O.selU i < 1

/-- Method `Population.natural_selection`, in source statement order:
find and record the best dot (possibly resetting `min_step`), put its baby
at slot 0 flagged as best, compute `fitness_sum` over the still-current old
cohort, fill slots `1..size-1` with babies of selected parents, then
replace the cohort and bump the generation counter.  The source's
`return 0` sentinel from a fallen-through selection (which would fault at
`parent.get_baby()`) is totalized with `dfltDot`. -/
def Pop.natural_selection (sf : ℚ → ℚ) (O : Oracle) (p : Pop) : Pop :=
  let p1 := p.set_best_dot
  let elite := { Dot.get_baby sf O.eliteG (p1.dots.getD p1.best_dot dfltDot) with is_best := true }
  let p2 := p1.calculate_fitness_sum
  let rest := (List.range (p2.dots.length - 1)).map
      (fun i => Dot.get_baby sf (O.slotG i) ((p2.select_parent (O.selU i)).getD dfltDot))
  { p2 with dots := elite :: rest, gen := p2.gen + 1 }

/-- Method `Population.mutate_babies`: the loop `for i in range(1, len)`
mutates the brain of every dot at index 1 and above, leaving index 0
untouched. -/
def Pop.mutate_babies (sf : ℚ → ℚ) (O : Oracle) (p : Pop) : Pop :=
  { p with dots := (List.range p.dots.length).map (fun i =>
      if i = 0 then p.dots.getD i dfltDot
      else { p.dots.getD i dfltDot with
               brain := Brain.mutate sf (O.mutR i) (O.mutG i) (p.dots.getD i dfltDot).brain }) }

/-- Generation boundary as executed by `main` when `all_dots_dead` holds:
reset the module-level counters, then `calculate_fitness`,
`natural_selection`, `mutate_babies`. -/
def Pop.boundary (sf : ℚ → ℚ) (O : Oracle) (p : Pop) : Pop :=
  Pop.mutate_babies sf O
    (Pop.natural_selection sf O
      (Pop.calculate_fitness { p with dead_count := 0, goal_count := 0 }))

/-- One iteration of the main loop, as it affects the core state: when all
dots are terminal the genetic phase runs (for some draws), otherwise the
per-tick update runs. -/
def stepRel (sf : ℚ → ℚ) (p p' : Pop) : Prop :=
  (p.all_dots_dead = true ∧ ∃ O : Oracle, O.valid ∧ p' = Pop.boundary sf O p) ∨
  (p.all_dots_dead = false ∧ p' = Pop.update sf p)

/-- States of the population reachable by the main loop from a freshly
initialized population of positive size. -/
inductive Reachable (sf : ℚ → ℚ) : Pop → Prop where
  | init (n : ℕ) (hn : 0 < n) (gs : ℕ → ℕ → ℚ × ℚ) : Reachable sf (popInit sf n gs)
  | step {p p' : Pop} : Reachable sf p → stepRel sf p p' → Reachable sf p'

/-! ### Helper definitions and lemmas -/

/-- Square-root stand-in used for concrete evaluations where the root's
value is irrelevant. -/
def zeroSqrt : ℚ → ℚ := fun _ => 0

/-- Sum of the fitness values of a cohort. -/
def sumFitDots (l : List Dot) : ℚ := (l.map Dot.fitness).sum

/-- Number of agents that went from not-dead to dead between two cohort
snapshots (formalizing the count the spec's aggregate counter is supposed
to report). -/
def newlyDead (old new : List Dot) : ℕ :=
  (old.zip new).countP (fun pr => !pr.1.dead && pr.2.dead)

theorem getD_map_range {α : Type} (n i : ℕ) (f : ℕ → α) (a : α) (h : i < n) :
    ((List.range n).map f).getD i a = f i := by
  rw [List.getD_eq_getElem?_getD, List.getElem?_map, List.getElem?_range h]
  rfl

theorem getD_map_range_ge {α : Type} (n i : ℕ) (f : ℕ → α) (a : α) (h : n ≤ i) :
    ((List.range n).map f).getD i a = a := by
  rw [List.getD_eq_getElem?_getD, List.getElem?_map]
  rw [List.getElem?_eq_none (by simpa using h)]
  rfl

theorem update_terminal (sf : ℚ → ℚ) (d : Dot)
    (h : d.dead = true ∨ d.reached_goal = true) : Dot.update sf d = (d, 0, 0) := by
  have h' : ¬ (d.dead = false ∧ d.reached_goal = false) := by
    rcases h with h | h <;> simp [h]
  simp [Dot.update, h']

theorem move_exhausted (sf : ℚ → ℚ) (d : Dot)
    (hx : ¬ d.brain.step < d.brain.directions.length) :
    Dot.move sf d =
      ({ d with dead := true, vel := capVel sf (d.vel + d.acc),
                pos := d.pos + capVel sf (d.vel + d.acc) }, 1) := by
  simp [Dot.move, hx]

theorem move_active (sf : ℚ → ℚ) (d : Dot)
    (hx : d.brain.step < d.brain.directions.length) :
    Dot.move sf d =
      ({ d with acc := d.brain.directions.getD d.brain.step (0, 0),
                brain := { d.brain with step := d.brain.step + 1 },
                vel := capVel sf (d.vel + d.brain.directions.getD d.brain.step (0, 0)),
                pos := d.pos + capVel sf (d.vel + d.brain.directions.getD d.brain.step (0, 0)) },
       0) := by
  simp [Dot.move, hx]

/-! ### Claim C2 -/

/-- Concrete active agent with an exhausted genome, nonzero velocity and a
stale nonzero acceleration. -/
def cexDot2 : Dot :=
  { brain := { directions := [(1, 0)], step := 1 }, pos := (100, 100), vel := (1, 0),
    acc := (1, 0), dead := false, fitness := 0, reached_goal := false, is_best := false }

/-- Claim C2, counterexample.  For this Active agent with an exhausted
genome, a `step()` call (`Dot.update`) sets the dead flag but does not
stop: both the position and the velocity change (the stale acceleration is
applied and the dot moves), contradicting the claim that the agent's
velocity and position are left unchanged by that call. -/
theorem C2_counterexample :
    ((Dot.update zeroSqrt cexDot2).1).dead = true ∧
    ((Dot.update zeroSqrt cexDot2).1).pos ≠ cexDot2.pos ∧
    ((Dot.update zeroSqrt cexDot2).1).vel ≠ cexDot2.vel := by
  norm_num [Dot.update, Dot.move, capVel, outOfBounds, nearGoal, inRect, normSq, cexDot2,
    dotMaxVelocity, height, width, goal, rect1, rect2, Prod.ext_iff]

/-- Claim C2, amended.  For every Active agent whose genome is exhausted
(cursor equals genome length), a `step()` call sets the dead flag but does
not stop: the stale acceleration is still added to the velocity (which is
then capped) and the capped velocity is added to the position; the cursor
and the acceleration are unchanged. -/
theorem C2_exhausted_step (sf : ℚ → ℚ) (d : Dot)
    (ha : d.dead = false) (hr : d.reached_goal = false)
    (hx : d.brain.step = d.brain.directions.length) :
    ((Dot.update sf d).1).dead = true ∧
    ((Dot.update sf d).1).vel = capVel sf (d.vel + d.acc) ∧
    ((Dot.update sf d).1).pos = d.pos + capVel sf (d.vel + d.acc) ∧
    ((Dot.update sf d).1).brain = d.brain ∧
    ((Dot.update sf d).1).acc = d.acc := by
  have hx' : ¬ d.brain.step < d.brain.directions.length := by
    rw [hx]; exact lt_irrefl _
  have hm := move_exhausted sf d hx'
  simp only [Dot.update, ha, hr, and_self, if_true, hm]
  split_ifs <;> simp

/-- Witness for C2, at the concrete agent `cexDot2`. -/
theorem C2_witness :
    ((Dot.update zeroSqrt cexDot2).1).dead = true ∧
    ((Dot.update zeroSqrt cexDot2).1).vel = capVel zeroSqrt (cexDot2.vel + cexDot2.acc) ∧
    ((Dot.update zeroSqrt cexDot2).1).pos = cexDot2.pos + capVel zeroSqrt (cexDot2.vel + cexDot2.acc) ∧
    ((Dot.update zeroSqrt cexDot2).1).brain = cexDot2.brain ∧
    ((Dot.update zeroSqrt cexDot2).1).acc = cexDot2.acc :=
  C2_exhausted_step zeroSqrt cexDot2 rfl rfl rfl

/-! ### Claim C3 -/

/-- Concrete non-reached agent whose final position is exactly the goal
center. -/
def cexDot3 : Dot := { mkFresh [] false with pos := goal }

/-- Claim C3, counterexample.  For an agent at the goal center that did not
reach the goal, `computeFitness` takes the non-reached branch and divides
by `distanceToGoal^2 = 0`: the divisor of the executed division is zero,
so the computation is not guarded against distance zero (under the
embedding's total division this stores `1/0 = 0`; in the source the
division by zero actually happens). -/
theorem C3_counterexample :
    cexDot3.reached_goal = false ∧
    cexDot3.fitnessDivisor = 0 ∧
    Dot.calculate_fitness cexDot3 = { cexDot3 with fitness := 1 / cexDot3.fitnessDivisor } := by
  refine ⟨rfl, ?_, ?_⟩
  · norm_num [cexDot3, Dot.fitnessDivisor, normSq, mkFresh, sub_self, Prod.fst_zero, Prod.snd_zero]
  · simp [Dot.calculate_fitness, cexDot3, mkFresh]

/-- Claim C3, amended.  `computeFitness` sets fitness to `1/16 + 1000/step^2`
when the agent has ReachedGoal (with `step` the current genome cursor,
which is frozen at the value it had when the goal was reached), and
otherwise to `1/distanceToGoal^2` where the division is performed with no
guard: for position equal to the goal center the divisor is zero and the
source divides by zero. -/
theorem C3_fitness (d : Dot) :
    (d.reached_goal = true →
      Dot.calculate_fitness d = { d with fitness := 1/16 + 1000 / ((d.brain.step : ℚ)) ^ 2 }) ∧
    (d.reached_goal = false →
      Dot.calculate_fitness d = { d with fitness := 1 / d.fitnessDivisor }) ∧
    (d.pos = goal → d.fitnessDivisor = 0) := by
  refine ⟨fun h => ?_, fun h => ?_, fun h => ?_⟩
  · simp [Dot.calculate_fitness, h]
  · simp [Dot.calculate_fitness, h]
  · simp [Dot.fitnessDivisor, h, normSq]

/-- Witness for C3: the reached branch at a concrete reached agent with
cursor 2, and the unguarded branch at the concrete at-goal agent. -/
theorem C3_witness :
    Dot.calculate_fitness { mkFresh [] false with brain := ⟨[], 2⟩, reached_goal := true } =
      { { mkFresh [] false with brain := ⟨[], 2⟩, reached_goal := true } with
          fitness := 1/16 + 1000 /
            ((({ mkFresh [] false with brain := ⟨[], 2⟩, reached_goal := true } : Dot).brain.step : ℚ)) ^ 2 } ∧
    cexDot3.fitnessDivisor = 0 :=
  ⟨(C3_fitness _).1 rfl, (C3_fitness cexDot3).2.2 rfl⟩

/-! ### Claim C4 -/

/-- Agent with fitness 4 (all other fields at their initial values). -/
def dot4 : Dot := { mkFresh [] false with fitness := 4 }

/-- Agent with fitness 6. -/
def dot6 : Dot := { mkFresh [] false with fitness := 6 }

/-- Two-agent population with fitnesses 4 and 6 and `fitness_sum` 10. -/
def pop46 : Pop :=
  { fitness_sum := 10, gen := 1, best_dot := 0, min_step := 400,
    dots := [dot4, dot6], dead_count := 0, goal_count := 0 }

/-- Two-agent population with all fitnesses 0 and `fitness_sum` 0. -/
def popZeroFit : Pop :=
  { pop46 with fitness_sum := 0,
               dots := [{ dot4 with fitness := 0 }, { dot6 with fitness := 0 }] }

theorem selectGo_two (a b : Dot) (r : ℚ) :
    selectGo [a, b] 0 r =
      if r < a.fitness then some a
      else if r < a.fitness + b.fitness then some b else none := by
  simp only [selectGo, zero_add]

/-- Claim C4, counterexample.  When `fitnessSum` is 0 there is no fallback
to a uniformly random agent: the walk never triggers and `select_parent`
falls through to the source's trailing `return 0`, a non-agent sentinel
(modeled `none`), instead of returning an agent of the cohort. -/
theorem C4_counterexample :
    popZeroFit.fitness_sum = 0 ∧
    Pop.select_parent popZeroFit (1/2) = none := by
  constructor
  · rfl
  · simp only [Pop.select_parent, selectFrom, popZeroFit, pop46]
    rw [selectGo_two]
    norm_num [dot4, dot6, mkFresh]

/-- Claim C4, amended.  `selectParent()` draws one uniform value
`r = fitnessSum * u` in `[0, fitnessSum)` and returns the first agent in
cohort order whose running fitness sum strictly exceeds `r` (with two
agents of fitness 4 and 6, a draw of 3.9 selects agent 0 and a draw of 4.1
selects agent 1); but when `fitnessSum` is 0 it does not fall back to a
uniformly random agent: the walk never fires and the trailing non-agent
sentinel `return 0` (modeled `none`) is returned instead. -/
theorem C4_selection (u : ℚ) (h0 : 0 ≤ u) (h1 : u < 1) :
    (10 * u < 4 → Pop.select_parent pop46 u = some dot4) ∧
    (4 ≤ 10 * u → Pop.select_parent pop46 u = some dot6) ∧
    Pop.select_parent pop46 (39/100) = some dot4 ∧
    Pop.select_parent pop46 (41/100) = some dot6 ∧
    Pop.select_parent popZeroFit (1/2) = none := by
  have hsel : ∀ w : ℚ, Pop.select_parent pop46 w =
      if 10 * w < 4 then some dot4 else if 10 * w < 10 then some dot6 else none := by
    intro w
    simp only [Pop.select_parent, selectFrom, pop46]
    rw [selectGo_two]
    norm_num [dot4, dot6, mkFresh]
  refine ⟨fun h => ?_, fun h => ?_, ?_, ?_, ?_⟩
  · rw [hsel]; simp [h]
  · rw [hsel]
    have h10 : (10 : ℚ) * u < 10 := by linarith
    simp [not_lt.mpr h, h10]
  · rw [hsel]; norm_num
  · rw [hsel]; norm_num
  · exact C4_counterexample.2

/-- Witness for C4, at the concrete draw `u = 1/2` (so `r = 5 ≥ 4`,
selecting agent 1). -/
theorem C4_witness : Pop.select_parent pop46 (1/2) = some dot6 :=
  (C4_selection (1/2) (by norm_num) (by norm_num)).2.1 (by norm_num)

/-! ### Claim C10 -/

theorem sumFitDots_cons (d : Dot) (l : List Dot) :
    sumFitDots (d :: l) = d.fitness + sumFitDots l := by
  simp [sumFitDots]

theorem selectGo_mem (l : List Dot) :
    ∀ (acc r : ℚ), acc ≤ r → r < acc + sumFitDots l →
      ∃ d, d ∈ l ∧ selectGo l acc r = some d := by
  induction l with
  | nil =>
      intro acc r h1 h2
      exfalso
      simp [sumFitDots] at h2
      linarith
  | cons d ds ih =>
      intro acc r h1 h2
      by_cases h : r < acc + d.fitness
      · exact ⟨d, List.mem_cons_self _ _, by simp [selectGo, h]⟩
      · push_neg at h
        rw [sumFitDots_cons] at h2
        obtain ⟨e, he, hsel⟩ := ih (acc + d.fitness) r h (by linarith)
        exact ⟨e, List.mem_cons_of_mem _ he, by simp [selectGo, not_lt.mpr h, hsel]⟩

/-- Claim C10, confirmed.  Whenever the stored `fitness_sum` is positive
and equals the actual sum of the cohort's fitness values (which is how
`natural_selection` always calls it, having just run
`calculate_fitness_sum`), every draw `u ∈ [0, 1)` of the underlying
`random()` makes `select_parent` return an agent of the cohort: the
trailing `return 0` sentinel is unreachable, because the drawn value
`fitness_sum * u` is strictly below the final running sum. -/
theorem C10_select_total (p : Pop) (u : ℚ)
    (hsum : p.fitness_sum = sumFitDots p.dots) (hpos : 0 < p.fitness_sum)
    (h0 : 0 ≤ u) (h1 : u < 1) :
    ∃ d, d ∈ p.dots ∧ Pop.select_parent p u = some d := by
  have hr0 : (0 : ℚ) ≤ p.fitness_sum * u := mul_nonneg hpos.le h0
  have hrs : p.fitness_sum * u < sumFitDots p.dots := by
    have := mul_lt_mul_of_pos_left h1 hpos
    rw [mul_one] at this
    linarith [hsum ▸ this]
  exact selectGo_mem p.dots 0 _ hr0 (by simpa using hrs)

/-- Witness for C10, at the two-agent population with fitnesses 4 and 6. -/
theorem C10_witness : ∃ d, d ∈ pop46.dots ∧ Pop.select_parent pop46 (1/2) = some d :=
  C10_select_total pop46 (1/2)
    (by norm_num [pop46, sumFitDots, dot4, dot6, mkFresh])
    (by norm_num [pop46]) (by norm_num) (by norm_num)

/-! ### Claim C9 -/

/-- Active agent whose cursor (4) already exceeds the step budget (3) of
`cexPop9`. -/
def cexDotA : Dot := { mkFresh [(1, 0)] false with brain := ⟨[(1, 0)], 4⟩ }

/-- Active agent in open space that survives two ticks. -/
def cexDotB : Dot := { mkFresh [(1, 0), (1, 0), (1, 0)] false with pos := (400, 400) }

/-- Two-agent population with `min_step = 3` and counters at 0. -/
def cexPop9 : Pop :=
  { fitness_sum := 0, gen := 1, best_dot := 0, min_step := 3,
    dots := [cexDotA, cexDotB], dead_count := 0, goal_count := 0 }

/-- Claim C9: the code double-counts.  Over two consecutive
`stepGeneration()` ticks of `cexPop9` (the generation is still running:
agent B stays active), exactly one agent (A) becomes Dead, yet
`dead_count` rises by 2: the budget-exhaustion branch of
`Population.update` increments the counter again on every later tick for
an agent that is already dead, so the newly-Dead counter does not equal
the number of agents whose status became Dead. -/
theorem C9_double_count :
    (Pop.update zeroSqrt cexPop9).all_dots_dead = false ∧
    (Pop.update zeroSqrt (Pop.update zeroSqrt cexPop9)).dead_count = 2 ∧
    newlyDead cexPop9.dots (Pop.update zeroSqrt (Pop.update zeroSqrt cexPop9)).dots = 1 := by
  norm_num [Pop.update, budgetStep, Dot.update, Dot.move, capVel, outOfBounds, nearGoal,
    inRect, normSq, cexPop9, cexDotA, cexDotB, mkFresh, newlyDead, Pop.all_dots_dead,
    dotMaxVelocity, height, width, goal, rect1, rect2, startPos, List.countP, List.countP.go]

/-! ### Claim C1 -/

/-- ReachedGoal agent with cursor 4, not dead. -/
def cexDotR : Dot := { mkFresh [(1, 0)] false with brain := ⟨[(1, 0)], 4⟩, reached_goal := true }

/-- One-agent population with `min_step = 3` holding the ReachedGoal agent. -/
def cexPop1 : Pop :=
  { fitness_sum := 0, gen := 1, best_dot := 0, min_step := 3,
    dots := [cexDotR], dead_count := 0, goal_count := 0 }

/-- Claim C1, counterexample.  A single `stepGeneration()`
(`Population.update`) call on an agent that has ReachedGoal but whose
cursor exceeds the step budget sets its dead flag: the agent's status
changes after having become ReachedGoal (so ReachedGoal is not absorbing
under `stepGeneration()`), and the resulting agent is simultaneously Dead
and ReachedGoal (so the two terminal statuses are not mutually
exclusive). -/
theorem C1_counterexample :
    (cexPop1.dots.getD 0 dfltDot).reached_goal = true ∧
    (cexPop1.dots.getD 0 dfltDot).dead = false ∧
    ((Pop.update zeroSqrt cexPop1).dots.getD 0 dfltDot).dead = true ∧
    ((Pop.update zeroSqrt cexPop1).dots.getD 0 dfltDot).reached_goal = true := by
  refine ⟨rfl, rfl, ?_, ?_⟩ <;>
    simp [Pop.update, budgetStep, cexPop1, cexDotR, mkFresh]

/-- Claim C1, amended.  Dead and ReachedGoal are absorbing for `step()`
(`Dot.update`): a terminal agent is returned unchanged with no counter
increments.  Under `stepGeneration()` (the `budgetStep` body of
`Population.update`), a terminal agent's position, velocity, genome and
ReachedGoal flag are also never changed, and the agent is either left
exactly unchanged or — when its cursor exceeds the budget — has its dead
flag set; in particular a ReachedGoal agent over budget additionally
becomes Dead, so the two terminal statuses are not mutually exclusive. -/
theorem C1_terminal_frame (sf : ℚ → ℚ) (M : ℕ) (d : Dot)
    (ht : d.dead = true ∨ d.reached_goal = true) :
    Dot.update sf d = (d, 0, 0) ∧
    (budgetStep sf M d).1.pos = d.pos ∧
    (budgetStep sf M d).1.vel = d.vel ∧
    (budgetStep sf M d).1.brain = d.brain ∧
    (budgetStep sf M d).1.reached_goal = d.reached_goal ∧
    ((budgetStep sf M d).1 = d ∨ (budgetStep sf M d).1 = { d with dead := true }) := by
  have hu := update_terminal sf d ht
  by_cases hb : M < d.brain.step
  · refine ⟨hu, ?_⟩
    simp [budgetStep, hb]
  · refine ⟨hu, ?_⟩
    simp [budgetStep, hb, hu]

/-- Witness for C1, at the concrete ReachedGoal agent `cexDotR` with
budget 3. -/
theorem C1_witness :
    Dot.update zeroSqrt cexDotR = (cexDotR, 0, 0) ∧
    (budgetStep zeroSqrt 3 cexDotR).1.pos = cexDotR.pos ∧
    (budgetStep zeroSqrt 3 cexDotR).1.vel = cexDotR.vel ∧
    (budgetStep zeroSqrt 3 cexDotR).1.brain = cexDotR.brain ∧
    (budgetStep zeroSqrt 3 cexDotR).1.reached_goal = cexDotR.reached_goal ∧
    ((budgetStep zeroSqrt 3 cexDotR).1 = cexDotR ∨
      (budgetStep zeroSqrt 3 cexDotR).1 = { cexDotR with dead := true }) :=
  C1_terminal_frame zeroSqrt 3 cexDotR (Or.inr rfl)

/-! ### Claim C7 -/

/-- Claim C7, counterexample.  With the zero draw `(0, 0)` the sampler does
not resample: the gene stored by genome creation is the zero vector divided
by its zero magnitude (the executed divisor `geneDivisor` is 0), and the
stored gene's squared magnitude is 0, not 1 within any tolerance. -/
theorem C7_counterexample :
    geneDivisor zeroSqrt (0, 0) = 0 ∧
    (Brain.init zeroSqrt 1 (fun _ => (0, 0))).directions = [((0 : ℚ), (0 : ℚ))] ∧
    normSq ((Brain.init zeroSqrt 1 (fun _ => (0, 0))).directions.getD 0 (1, 1)) = 0 ∧
    normSq ((Brain.init zeroSqrt 1 (fun _ => (0, 0))).directions.getD 0 (1, 1)) ≠ 1 := by
  norm_num [geneDivisor, normSq, zeroSqrt, Brain.init, Brain.randomize, sampleGene,
    List.range_succ, List.range_zero]

/-- Claim C7, amended.  Every gene produced by genome creation is the
normalization `sampleGene` of its two gaussian draws, and every gene
produced by mutation is either the old gene or `sampleGene` of fresh
draws; whenever the draw's squared magnitude is nonzero and the square
root is exact on it, the stored gene's squared magnitude is exactly 1.
There is no resample: a zero-magnitude draw is divided by its zero
magnitude (see the counterexample). -/
theorem C7_unit_genes :
    (∀ (sf : ℚ → ℚ) (v : ℚ × ℚ), sf (normSq v) ^ 2 = normSq v → normSq v ≠ 0 →
        normSq (sampleGene sf v) = 1) ∧
    (∀ (sf : ℚ → ℚ) (gs : ℕ → ℚ × ℚ) (size i : ℕ), i < size →
        (Brain.randomize sf gs size).getD i (0, 0) = sampleGene sf (gs i)) ∧
    (∀ (sf : ℚ → ℚ) (rs : ℕ → ℚ) (gs : ℕ → ℚ × ℚ) (b : Brain) (i : ℕ),
        i < b.directions.length →
        (Brain.mutate sf rs gs b).directions.getD i (0, 0) =
          if rs i < mutationRate then sampleGene sf (gs i)
          else b.directions.getD i (0, 0)) := by
  refine ⟨fun sf v hsf hv => ?_, fun sf gs size i h => ?_, fun sf rs gs b i h => ?_⟩
  · have hm : sf (normSq v) ≠ 0 := by
      intro h
      rw [h] at hsf
      exact hv (by simpa using hsf.symm)
    simp only [sampleGene, geneDivisor, normSq] at *
    rw [div_pow, div_pow, div_add_div_same, hsf]
    exact div_self hv
  · exact getD_map_range size i _ _ h
  · exact getD_map_range _ i _ _ h

/-- Square-root stand-in exact on the value 25. -/
def fiveSqrt : ℚ → ℚ := fun _ => 5

/-- Witness for C7, at the concrete draw `(3, 4)` whose magnitude is 5:
the stored gene `(3/5, 4/5)` has squared magnitude exactly 1, for genome
creation and for a mutated slot. -/
theorem C7_witness :
    normSq (sampleGene fiveSqrt (3, 4)) = 1 ∧
    (Brain.randomize fiveSqrt (fun _ => (3, 4)) 1).getD 0 (0, 0) =
      sampleGene fiveSqrt (3, 4) ∧
    (Brain.mutate fiveSqrt (fun _ => 0) (fun _ => (3, 4)) ⟨[(1, 0)], 0⟩).directions.getD 0 (0, 0) =
      sampleGene fiveSqrt ((3 : ℚ), (4 : ℚ)) := by
  refine ⟨C7_unit_genes.1 fiveSqrt (3, 4) (by norm_num [normSq, fiveSqrt])
      (by norm_num [normSq]),
    C7_unit_genes.2.1 fiveSqrt _ 1 0 (by norm_num), ?_⟩
  rw [C7_unit_genes.2.2 fiveSqrt (fun _ => 0) (fun _ => (3, 4)) ⟨[(1, 0)], 0⟩ 0 (by norm_num)]
  norm_num [mutationRate]

/-! ### Claims C5 and C6 -/

theorem set_best_dot_dots (p : Pop) : p.set_best_dot.dots = p.dots := by
  simp only [Pop.set_best_dot]
  split <;> rfl

theorem set_best_dot_best (p : Pop) : p.set_best_dot.best_dot = bestIndex p.dots := by
  simp only [Pop.set_best_dot]
  split <;> rfl

theorem set_best_dot_gen (p : Pop) : p.set_best_dot.gen = p.gen := by
  simp only [Pop.set_best_dot]
  split <;> rfl

/-- Cohort produced by `natural_selection`: the elite baby of the best dot
followed by babies of parents selected from the old cohort with the old
cohort's fitness sum. -/
theorem natural_selection_dots (sf : ℚ → ℚ) (O : Oracle) (p : Pop) :
    (Pop.natural_selection sf O p).dots =
      { Dot.get_baby sf O.eliteG (p.dots.getD (bestIndex p.dots) dfltDot) with is_best := true } ::
        (List.range (p.dots.length - 1)).map (fun i =>
          Dot.get_baby sf (O.slotG i)
            ((selectFrom p.dots (sumFitDots p.dots) (O.selU i)).getD dfltDot)) := by
  simp only [Pop.natural_selection, Pop.calculate_fitness_sum, Pop.select_parent,
    set_best_dot_dots, set_best_dot_best, sumFitDots]

theorem natural_selection_fitness_sum (sf : ℚ → ℚ) (O : Oracle) (p : Pop) :
    (Pop.natural_selection sf O p).fitness_sum = sumFitDots p.dots := by
  simp only [Pop.natural_selection, Pop.calculate_fitness_sum, set_best_dot_dots, sumFitDots]

/-- Claim C5, confirmed.  Inside `natural_selection` the `fitness_sum` read
by every `select_parent` call is the one just computed over the old cohort
(`self.dots` is only replaced at the very end): the resulting state's
`fitness_sum` is the sum of the old cohort's fitness values, and every
offspring slot `i+1` is the baby of a parent selected from the old cohort
with exactly that sum — the elite clone sits only in the new list and
contributes nothing to the sum or to the selection. -/
theorem C5_old_cohort_sum (sf : ℚ → ℚ) (O : Oracle) (p : Pop) :
    (Pop.natural_selection sf O p).fitness_sum = sumFitDots p.dots ∧
    ∀ i, i < p.dots.length - 1 →
      (Pop.natural_selection sf O p).dots.getD (i + 1) dfltDot =
        Dot.get_baby sf (O.slotG i)
          ((selectFrom p.dots (sumFitDots p.dots) (O.selU i)).getD dfltDot) := by
  refine ⟨natural_selection_fitness_sum sf O p, fun i hi => ?_⟩
  rw [natural_selection_dots, List.getD_cons_succ, getD_map_range _ _ _ _ hi]

/-- Concrete oracle streams for witnesses. -/
def O5 : Oracle := ⟨fun _ => 1/2, fun _ => (1, 0), fun _ _ => (1, 0), fun _ _ => 1, fun _ _ => (1, 0)⟩

/-- Witness for C5, at the concrete two-agent population `pop46`. -/
theorem C5_witness :
    (Pop.natural_selection zeroSqrt O5 pop46).fitness_sum = sumFitDots pop46.dots ∧
    (Pop.natural_selection zeroSqrt O5 pop46).dots.getD 1 dfltDot =
      Dot.get_baby zeroSqrt (O5.slotG 0)
        ((selectFrom pop46.dots (sumFitDots pop46.dots) (O5.selU 0)).getD dfltDot) :=
  ⟨(C5_old_cohort_sum zeroSqrt O5 pop46).1,
    (C5_old_cohort_sum zeroSqrt O5 pop46).2 0 (by simp [pop46])⟩

theorem mutate_babies_getD_lt (sf : ℚ → ℚ) (O : Oracle) (q : Pop) (i : ℕ)
    (h : i < q.dots.length) :
    (Pop.mutate_babies sf O q).dots.getD i dfltDot =
      if i = 0 then q.dots.getD i dfltDot
      else { q.dots.getD i dfltDot with
               brain := Brain.mutate sf (O.mutR i) (O.mutG i) (q.dots.getD i dfltDot).brain } := by
  simp only [Pop.mutate_babies]
  exact getD_map_range _ i _ _ h

theorem mutate_babies_getD_ge (sf : ℚ → ℚ) (O : Oracle) (q : Pop) (i : ℕ)
    (h : q.dots.length ≤ i) :
    (Pop.mutate_babies sf O q).dots.getD i dfltDot = dfltDot := by
  simp only [Pop.mutate_babies]
  exact getD_map_range_ge _ i _ _ h

/-- Claim C6, confirmed.  Immediately after `natural_selection` the agent
at cohort index 0 carries a genome whose genes are exactly the prior best
agent's genes, and a subsequent `mutate_babies` call modifies only the
genomes of agents at indices 1 and above: the agent at index 0 is left
entirely unchanged, and every other agent keeps all its fields (including
the genome cursor) except for the gene list. -/
theorem C6_elite_preserved (sf : ℚ → ℚ) (O OM : Oracle) (p q : Pop) :
    ((Pop.natural_selection sf O p).dots.getD 0 dfltDot).brain.directions =
      (p.dots.getD (bestIndex p.dots) dfltDot).brain.directions ∧
    (Pop.mutate_babies sf OM q).dots.getD 0 dfltDot = q.dots.getD 0 dfltDot ∧
    ∀ i, ((Pop.mutate_babies sf OM q).dots.getD i dfltDot).pos = (q.dots.getD i dfltDot).pos ∧
      ((Pop.mutate_babies sf OM q).dots.getD i dfltDot).vel = (q.dots.getD i dfltDot).vel ∧
      ((Pop.mutate_babies sf OM q).dots.getD i dfltDot).acc = (q.dots.getD i dfltDot).acc ∧
      ((Pop.mutate_babies sf OM q).dots.getD i dfltDot).dead = (q.dots.getD i dfltDot).dead ∧
      ((Pop.mutate_babies sf OM q).dots.getD i dfltDot).fitness = (q.dots.getD i dfltDot).fitness ∧
      ((Pop.mutate_babies sf OM q).dots.getD i dfltDot).reached_goal =
        (q.dots.getD i dfltDot).reached_goal ∧
      ((Pop.mutate_babies sf OM q).dots.getD i dfltDot).is_best = (q.dots.getD i dfltDot).is_best ∧
      ((Pop.mutate_babies sf OM q).dots.getD i dfltDot).brain.step =
        (q.dots.getD i dfltDot).brain.step := by
  refine ⟨?_, ?_, fun i => ?_⟩
  · rw [natural_selection_dots, List.getD_cons_zero]
    simp [get_baby_eq_mkFresh, mkFresh]
  · by_cases h : 0 < q.dots.length
    · rw [mutate_babies_getD_lt sf OM q 0 h]
      simp
    · have h' : q.dots.length ≤ 0 := Nat.le_of_not_lt h
      rw [mutate_babies_getD_ge sf OM q 0 h']
      rw [List.getD_eq_default _ _ (by omega)]
  · by_cases h : i < q.dots.length
    · rw [mutate_babies_getD_lt sf OM q i h]
      by_cases h0 : i = 0
      · simp [h0]
      · simp [h0, Brain.mutate]
    · have h' : q.dots.length ≤ i := Nat.le_of_not_lt h
      rw [mutate_babies_getD_ge sf OM q i h']
      rw [List.getD_eq_default _ _ h']
      exact ⟨rfl, rfl, rfl, rfl, rfl, rfl, rfl, rfl⟩

/-! ### Claim C8: per-dot trajectory layer

How a single dot evolves under repeated `Population.update` ticks at a
fixed budget.  Dots do not interact during `Population.update`, so the
per-dot evolution is the dot component of `budgetStep`. -/

/-- Dot component of one `Population.update` tick. -/
def evolve (sf : ℚ → ℚ) (M : ℕ) (d : Dot) : Dot := (budgetStep sf M d).1

/-- Dot state after `t` ticks of `Population.update` at a fixed budget. -/
def traj (sf : ℚ → ℚ) (M : ℕ) (d : Dot) (t : ℕ) : Dot := (evolve sf M)^[t] d

theorem traj_zero (sf : ℚ → ℚ) (M : ℕ) (d : Dot) : traj sf M d 0 = d := rfl

theorem traj_succ (sf : ℚ → ℚ) (M : ℕ) (d : Dot) (t : ℕ) :
    traj sf M d (t + 1) = evolve sf M (traj sf M d t) :=
  Function.iterate_succ_apply' _ _ _

theorem traj_add (sf : ℚ → ℚ) (M : ℕ) (d : Dot) (t k : ℕ) :
    traj sf M d (t + k) = traj sf M (traj sf M d t) k := by
  simp only [traj, Nat.add_comm t k, Function.iterate_add_apply]

theorem evolve_budget (sf : ℚ → ℚ) (M : ℕ) (d : Dot) (h : M < d.brain.step) :
    evolve sf M d = { d with dead := true } := by
  simp [evolve, budgetStep, h]

theorem evolve_nonbudget (sf : ℚ → ℚ) (M : ℕ) (d : Dot) (h : ¬ M < d.brain.step) :
    evolve sf M d = (Dot.update sf d).1 := by
  simp [evolve, budgetStep, h]

theorem set_dead_self {d : Dot} (h : d.dead = true) : ({ d with dead := true } : Dot) = d := by
  cases d
  simp_all

theorem terminal_of_not_active {d : Dot} (h : ¬ (d.dead = false ∧ d.reached_goal = false)) :
    d.dead = true ∨ d.reached_goal = true := by
  cases hd : d.dead
  · cases hr : d.reached_goal
    · exact absurd ⟨hd, hr⟩ h
    · exact Or.inr rfl
  · exact Or.inl rfl

theorem terminal_bool {d : Dot} (h : (d.dead || d.reached_goal) = true) :
    d.dead = true ∨ d.reached_goal = true := by
  rcases Bool.or_eq_true_iff.mp h with h | h
  · exact Or.inl h
  · exact Or.inr h

theorem evolve_dead (sf : ℚ → ℚ) (M : ℕ) (d : Dot) (h : d.dead = true) :
    evolve sf M d = d := by
  by_cases hb : M < d.brain.step
  · rw [evolve_budget sf M d hb, set_dead_self h]
  · rw [evolve_nonbudget sf M d hb, update_terminal sf d (Or.inl h)]

theorem evolve_reached_le (sf : ℚ → ℚ) (M : ℕ) (d : Dot) (h : d.reached_goal = true)
    (hs : d.brain.step ≤ M) : evolve sf M d = d := by
  rw [evolve_nonbudget sf M d (not_lt.mpr hs), update_terminal sf d (Or.inr h)]

theorem traj_dead (sf : ℚ → ℚ) (M : ℕ) (d : Dot) (h : d.dead = true) (k : ℕ) :
    traj sf M d k = d := by
  induction k with
  | zero => rfl
  | succ k ih => rw [traj_succ, ih, evolve_dead sf M d h]

theorem traj_reached_le (sf : ℚ → ℚ) (M : ℕ) (d : Dot) (h : d.reached_goal = true)
    (hs : d.brain.step ≤ M) (k : ℕ) : traj sf M d k = d := by
  induction k with
  | zero => rfl
  | succ k ih => rw [traj_succ, ih, evolve_reached_le sf M d h hs]

theorem move_brain (sf : ℚ → ℚ) (d : Dot) :
    (Dot.move sf d).1.brain =
      if d.brain.step < d.brain.directions.length then
        { d.brain with step := d.brain.step + 1 }
      else d.brain := by
  simp only [Dot.move]
  split <;> rfl

theorem move_pos_flags (sf : ℚ → ℚ) (d : Dot) :
    (Dot.move sf d).1.reached_goal = d.reached_goal ∧
    (Dot.move sf d).1.is_best = d.is_best ∧
    (Dot.move sf d).1.fitness = d.fitness := by
  simp only [Dot.move]
  split <;> exact ⟨rfl, rfl, rfl⟩

theorem update_chain (sf : ℚ → ℚ) (d : Dot) (ha : d.dead = false) (hr : d.reached_goal = false) :
    (Dot.update sf d).1 =
      (if outOfBounds (Dot.move sf d).1.pos then { (Dot.move sf d).1 with dead := true }
       else if nearGoal (Dot.move sf d).1.pos then
         { (Dot.move sf d).1 with reached_goal := true }
       else if inRect rect1 (Dot.move sf d).1.pos then { (Dot.move sf d).1 with dead := true }
       else if inRect rect2 (Dot.move sf d).1.pos then { (Dot.move sf d).1 with dead := true }
       else (Dot.move sf d).1) := by
  simp only [Dot.update, ha, hr, and_self, if_true]
  split_ifs <;> rfl

theorem updateD_brain (sf : ℚ → ℚ) (d : Dot) (ha : d.dead = false) (hr : d.reached_goal = false) :
    (Dot.update sf d).1.brain = (Dot.move sf d).1.brain := by
  rw [update_chain sf d ha hr]
  split_ifs <;> rfl

theorem updateD_is_best (sf : ℚ → ℚ) (d : Dot) : (Dot.update sf d).1.is_best = d.is_best := by
  by_cases hg : d.dead = false ∧ d.reached_goal = false
  · rw [update_chain sf d hg.1 hg.2]
    have hm := (move_pos_flags sf d).2.1
    split_ifs <;> simpa using hm
  · rw [update_terminal sf d (terminal_of_not_active hg)]

theorem evolve_directions (sf : ℚ → ℚ) (M : ℕ) (d : Dot) :
    (evolve sf M d).brain.directions = d.brain.directions := by
  by_cases hb : M < d.brain.step
  · rw [evolve_budget sf M d hb]
  · rw [evolve_nonbudget sf M d hb]
    by_cases hg : d.dead = false ∧ d.reached_goal = false
    · rw [updateD_brain sf d hg.1 hg.2, move_brain]
      split_ifs <;> rfl
    · rw [update_terminal sf d (terminal_of_not_active hg)]

theorem evolve_is_best (sf : ℚ → ℚ) (M : ℕ) (d : Dot) :
    (evolve sf M d).is_best = d.is_best := by
  by_cases hb : M < d.brain.step
  · rw [evolve_budget sf M d hb]
  · rw [evolve_nonbudget sf M d hb, updateD_is_best sf d]

theorem evolve_step_mono (sf : ℚ → ℚ) (M : ℕ) (d : Dot) :
    d.brain.step ≤ (evolve sf M d).brain.step := by
  by_cases hb : M < d.brain.step
  · rw [evolve_budget sf M d hb]
  · rw [evolve_nonbudget sf M d hb]
    by_cases hg : d.dead = false ∧ d.reached_goal = false
    · rw [updateD_brain sf d hg.1 hg.2, move_brain]
      split_ifs <;> simp
    · rw [update_terminal sf d (terminal_of_not_active hg)]

theorem evolve_step_le (sf : ℚ → ℚ) (M L : ℕ) (d : Dot)
    (hlen : d.brain.directions.length = L) (hstep : d.brain.step ≤ L) :
    (evolve sf M d).brain.step ≤ L := by
  by_cases hb : M < d.brain.step
  · rw [evolve_budget sf M d hb]; exact hstep
  · rw [evolve_nonbudget sf M d hb]
    by_cases hg : d.dead = false ∧ d.reached_goal = false
    · rw [updateD_brain sf d hg.1 hg.2, move_brain]
      split_ifs with h
    -- in the increment branch the cursor was strictly below the length
      · simpa [hlen] using Nat.succ_le_of_lt (hlen ▸ h)
      · exact hstep
    · rw [update_terminal sf d (terminal_of_not_active hg)]; exact hstep

theorem traj_step_mono (sf : ℚ → ℚ) (M : ℕ) (d : Dot) {i j : ℕ} (h : i ≤ j) :
    (traj sf M d i).brain.step ≤ (traj sf M d j).brain.step := by
  induction j with
  | zero => simpa [Nat.le_zero.mp h]
  | succ j ih =>
      rcases Nat.lt_or_ge i (j + 1) with hj | hj
      · have := ih (Nat.lt_succ_iff.mp hj)
        rw [traj_succ]
        exact this.trans (evolve_step_mono sf M _)
      · have : i = j + 1 := le_antisymm h hj
        simp [this]

theorem traj_directions (sf : ℚ → ℚ) (M : ℕ) (d : Dot) (t : ℕ) :
    (traj sf M d t).brain.directions = d.brain.directions := by
  induction t with
  | zero => rfl
  | succ t ih => rw [traj_succ, evolve_directions, ih]

theorem traj_is_best (sf : ℚ → ℚ) (M : ℕ) (d : Dot) (t : ℕ) :
    (traj sf M d t).is_best = d.is_best := by
  induction t with
  | zero => rfl
  | succ t ih => rw [traj_succ, evolve_is_best, ih]

/-- Geometric fact: an out-of-bounds position is at squared distance at
least 16 from the goal center. -/
theorem bounds_far (q : ℚ × ℚ) (h : outOfBounds q) : 16 ≤ normSq (goal - q) := by
  have hg : normSq (goal - q) = (20 - q.1) ^ 2 + (800 - q.2) ^ 2 := by
    simp only [normSq, goal, width, Prod.fst_sub, Prod.snd_sub]
    norm_num
  rw [hg]
  rcases h with h | h | h | h
  · nlinarith [sq_nonneg (2 - q.1), sq_nonneg (800 - q.2)]
  · nlinarith [sq_nonneg (2 - q.2), sq_nonneg (20 - q.1)]
  · have h' : (798 : ℚ) < q.1 := by
      have := h
      simp only [height] at this
      linarith
    nlinarith [sq_nonneg (q.1 - 798), sq_nonneg (800 - q.2)]
  · have h' : (1598 : ℚ) < q.2 := by
      have := h
      simp only [width] at this
      linarith
    nlinarith [sq_nonneg (q.2 - 1598), sq_nonneg (20 - q.1)]

/-- Geometric fact: a position failing the goal test is at squared
distance at least 16 (indeed 400) from the goal center. -/
theorem notNear_far (q : ℚ × ℚ) (h : ¬ nearGoal q) : 16 ≤ normSq (goal - q) := by
  simp only [nearGoal, not_lt] at h
  linarith

/-- Per-dot invariant maintained by `Population.update` ticks: the gene
list keeps its length, the cursor never passes the length, a reached dot
has taken at least one step, and a not-reached dot sits at squared
distance at least 16 from the goal. -/
def DI (L : ℕ) (d : Dot) : Prop :=
  d.brain.directions.length = L ∧ d.brain.step ≤ L ∧
  (d.reached_goal = true → 1 ≤ d.brain.step) ∧
  (d.reached_goal = false → 16 ≤ normSq (goal - d.pos))

theorem DI_evolve (sf : ℚ → ℚ) (M L : ℕ) (d : Dot) (hL : 1 ≤ L) (h : DI L d) :
    DI L (evolve sf M d) := by
  obtain ⟨hlen, hstep, hre, hfar⟩ := h
  by_cases hb : M < d.brain.step
  · rw [evolve_budget sf M d hb]
    exact ⟨hlen, hstep, hre, hfar⟩
  · rw [evolve_nonbudget sf M d hb]
    by_cases hg : d.dead = false ∧ d.reached_goal = false
    · obtain ⟨ha, hr⟩ := hg
      have hmb := move_brain sf d
      have hmf := move_pos_flags sf d
      have hmlen : (Dot.move sf d).1.brain.directions.length = L := by
        rw [hmb]; split_ifs <;> simpa
      have hmstep : (Dot.move sf d).1.brain.step ≤ L := by
        rw [hmb]
        split_ifs with hx
        · simpa using Nat.succ_le_of_lt (hlen ▸ hx)
        · exact hstep
      have hmstep1 : 1 ≤ (Dot.move sf d).1.brain.step ∨ d.brain.step < d.brain.directions.length := by
        rw [hmb]
        split_ifs with hx
        · exact Or.inr hx
        · refine Or.inl ?_
          have : L ≤ d.brain.step := hlen ▸ Nat.le_of_not_lt hx
          omega
      have hmstep1' : 1 ≤ (Dot.move sf d).1.brain.step := by
        rcases hmstep1 with h1 | hx
        · exact h1
        · rw [hmb]
          simp [hx]
      have hmr : (Dot.move sf d).1.reached_goal = false := hmf.1.trans hr
      rw [update_chain sf d ha hr]
      split_ifs with h1 h2 h3 h4
      · exact ⟨hmlen, hmstep, fun hco => by simp at hco; exact absurd hco.symm (by simp [hmr]),
          fun _ => bounds_far _ h1⟩
      · exact ⟨hmlen, hmstep, fun _ => hmstep1', fun hco => by simp at hco⟩
      · exact ⟨hmlen, hmstep, fun hco => absurd (hmr ▸ hco) (by simp),
          fun _ => notNear_far _ h2⟩
      · exact ⟨hmlen, hmstep, fun hco => absurd (hmr ▸ hco) (by simp),
          fun _ => notNear_far _ h2⟩
      · exact ⟨hmlen, hmstep, fun hco => absurd (hmr ▸ hco) (by simp),
          fun _ => notNear_far _ h2⟩
    · rw [update_terminal sf d (terminal_of_not_active hg)]
      exact ⟨hlen, hstep, hre, hfar⟩

theorem DI_traj (sf : ℚ → ℚ) (M L : ℕ) (d : Dot) (hL : 1 ≤ L) (h : DI L d) (t : ℕ) :
    DI L (traj sf M d t) := by
  induction t with
  | zero => exact h
  | succ t ih => rw [traj_succ]; exact DI_evolve sf M L _ hL ih

theorem DI_fresh (L : ℕ) (ds : List (ℚ × ℚ)) (b : Bool) (hlen : ds.length = L) :
    DI L (mkFresh ds b) := by
  refine ⟨hlen, Nat.zero_le _, by simp [mkFresh], fun _ => ?_⟩
  norm_num [mkFresh, normSq, goal, startPos, width, height, Prod.fst_sub, Prod.snd_sub]

/-- First tick at which a trajectory reaches the goal: before it the dot
is fully active (not reached, not dead). -/
theorem reach_first (sf : ℚ → ℚ) (M : ℕ) (d0 : Dot)
    (h : ∃ t, (traj sf M d0 t).reached_goal = true) :
    ∃ t1, (traj sf M d0 t1).reached_goal = true ∧
      (∀ i, i < t1 → (traj sf M d0 i).reached_goal = false ∧ (traj sf M d0 i).dead = false) ∧
      ∀ t, (traj sf M d0 t).reached_goal = true → t1 ≤ t := by
  refine ⟨Nat.find h, Nat.find_spec h, fun i hi => ?_, fun t ht => Nat.find_min' h ht⟩
  have hnr : (traj sf M d0 i).reached_goal = false := by
    have := Nat.find_min h hi
    simpa using this
  refine ⟨hnr, ?_⟩
  by_contra hd
  have hd' : (traj sf M d0 i).dead = true := by
    cases hdd : (traj sf M d0 i).dead
    · exact absurd hdd hd
    · rfl
  have heq : traj sf M d0 (Nat.find h) = traj sf M d0 i := by
    have hsplit : Nat.find h = i + (Nat.find h - i) := by omega
    rw [hsplit, traj_add, traj_dead _ _ _ hd']
  have := Nat.find_spec h
  rw [heq] at this
  exact absurd this (by simp [hnr])

/-- Before the first reach, the budget test never fires. -/
theorem pre_reach_nonbudget (sf : ℚ → ℚ) (M : ℕ) (d0 : Dot) (t1 : ℕ)
    (h1 : (traj sf M d0 t1).reached_goal = true)
    (hpre : ∀ i, i < t1 → (traj sf M d0 i).reached_goal = false ∧ (traj sf M d0 i).dead = false) :
    ∀ i, i < t1 → ¬ M < (traj sf M d0 i).brain.step := by
  intro i hi hlt
  have hstep : traj sf M d0 (i + 1) = { traj sf M d0 i with dead := true } := by
    rw [traj_succ, evolve_budget _ _ _ hlt]
  rcases Nat.lt_or_ge (i + 1) t1 with hc | hc
  · have := (hpre (i + 1) hc).2
    rw [hstep] at this
    simp at this
  · have hco : i + 1 = t1 := by omega
    have hr := h1
    rw [← hco, hstep] at hr
    have := (hpre i hi).1
    simp [this] at hr

/-- Determinism across budgets: a trajectory that first reaches the goal
with a final cursor within budget `B` is reproduced tick for tick under
budget `B`. -/
theorem traj_transfer (sf : ℚ → ℚ) (A B : ℕ) (d0 : Dot) (t1 : ℕ)
    (h1 : (traj sf A d0 t1).reached_goal = true)
    (hpre : ∀ i, i < t1 → (traj sf A d0 i).reached_goal = false ∧ (traj sf A d0 i).dead = false)
    (hB : (traj sf A d0 t1).brain.step ≤ B)
    (hBstep : ∀ i, i < t1 → (traj sf A d0 i).brain.step ≤ (traj sf A d0 t1).brain.step) :
    ∀ i, i ≤ t1 → traj sf B d0 i = traj sf A d0 i := by
  intro i hi
  induction i with
  | zero => rfl
  | succ i ih =>
      have hi' : i < t1 := Nat.lt_of_succ_le hi
      have hih := ih (Nat.le_of_lt hi')
      rw [traj_succ, traj_succ, hih]
      have hA : ¬ A < (traj sf A d0 i).brain.step :=
        pre_reach_nonbudget sf A d0 t1 h1 hpre i hi'
      have hstepB : (traj sf A d0 i).brain.step ≤ B := le_trans (hBstep i hi') hB
      rw [evolve_nonbudget _ _ _ hA, evolve_nonbudget _ _ _ (not_lt.mpr hstepB)]

/-! ### Claim C8: transport of the elite flag

Setting `is_best` on a dot commutes with the whole per-tick evolution; the
flag never influences the kinematics or the status logic. -/

theorem move_is_best_set (sf : ℚ → ℚ) (d : Dot) (b : Bool) :
    Dot.move sf { d with is_best := b } =
      ({ (Dot.move sf d).1 with is_best := b }, (Dot.move sf d).2) := by
  simp only [Dot.move]
  split_ifs <;> rfl

theorem updateD_is_best_set (sf : ℚ → ℚ) (d : Dot) (b : Bool) :
    (Dot.update sf { d with is_best := b }).1 = { (Dot.update sf d).1 with is_best := b } := by
  by_cases hg : d.dead = false ∧ d.reached_goal = false
  · rw [update_chain sf { d with is_best := b } hg.1 hg.2, update_chain sf d hg.1 hg.2,
      move_is_best_set]
    split_ifs <;> rfl
  · have hg' : ¬ (({ d with is_best := b } : Dot).dead = false ∧
        ({ d with is_best := b } : Dot).reached_goal = false) := hg
    rw [update_terminal sf _ (terminal_of_not_active hg'),
      update_terminal sf d (terminal_of_not_active hg)]

theorem evolve_is_best_set (sf : ℚ → ℚ) (M : ℕ) (d : Dot) (b : Bool) :
    evolve sf M { d with is_best := b } = { evolve sf M d with is_best := b } := by
  by_cases hb : M < d.brain.step
  · rw [evolve_budget sf M { d with is_best := b } hb, evolve_budget sf M d hb]
  · rw [evolve_nonbudget sf M { d with is_best := b } hb, evolve_nonbudget sf M d hb,
      updateD_is_best_set]

theorem traj_is_best_set (sf : ℚ → ℚ) (M : ℕ) (d : Dot) (b : Bool) (t : ℕ) :
    traj sf M { d with is_best := b } t = { traj sf M d t with is_best := b } := by
  induction t with
  | zero => rfl
  | succ t ih => rw [traj_succ, ih, evolve_is_best_set, traj_succ]

/-! ### Claim C8: population layer -/

theorem pop_update_dots (sf : ℚ → ℚ) (p : Pop) :
    (Pop.update sf p).dots = p.dots.map (evolve sf p.min_step) := by
  simp only [Pop.update, List.map_map]
  rfl

theorem pop_update_min_step (sf : ℚ → ℚ) (p : Pop) :
    (Pop.update sf p).min_step = p.min_step := rfl

theorem getD_map_lt {α β : Type} (l : List α) (f : α → β) (i : ℕ) (b : β) (a : α)
    (h : i < l.length) : (l.map f).getD i b = f (l.getD i a) := by
  rw [List.getD_eq_getElem?_getD, List.getElem?_map, List.getD_eq_getElem?_getD,
    List.getElem?_eq_getElem h]
  rfl

theorem getD_mem {α : Type} {l : List α} {i : ℕ} (h : i < l.length) (a : α) :
    l.getD i a ∈ l := by
  rw [List.getD_eq_getElem?_getD, List.getElem?_eq_getElem h]
  exact List.getElem_mem h

theorem all_dead_mem {p : Pop} (h : p.all_dots_dead = true) :
    ∀ d ∈ p.dots, d.dead = true ∨ d.reached_goal = true := by
  intro d hd
  have := List.all_eq_true.mp h d hd
  exact terminal_bool this

/-- Provenance invariant of a single dot: its gene list has the standard
length 400 and its current state lies on the trajectory of a freshly
started dot with the same genes under the current budget. -/
def InvDot (sf : ℚ → ℚ) (M : ℕ) (d : Dot) : Prop :=
  d.brain.directions.length = 400 ∧
  ∃ t, traj sf M (mkFresh d.brain.directions d.is_best) t = d

/-- Agent at cohort slot 0. -/
def headOf (p : Pop) : Dot := p.dots.getD 0 dfltDot

/-- Invariant of the elite slot: either the budget is still the initial
400, or the trajectory of a fresh dot with the head's genes reaches the
goal under the current budget with a final cursor within the budget. -/
def HeadInv (sf : ℚ → ℚ) (p : Pop) : Prop :=
  p.min_step = 400 ∨
  ∃ t, (traj sf p.min_step (mkFresh (headOf p).brain.directions (headOf p).is_best) t).reached_goal
          = true ∧
       (traj sf p.min_step (mkFresh (headOf p).brain.directions (headOf p).is_best) t).brain.step
          ≤ p.min_step

/-- Reachability invariant of the population. -/
def Inv (sf : ℚ → ℚ) (p : Pop) : Prop :=
  p.dots ≠ [] ∧ (∀ d ∈ p.dots, InvDot sf p.min_step d) ∧ HeadInv sf p

theorem randomize_length (sf : ℚ → ℚ) (gs : ℕ → ℚ × ℚ) (size : ℕ) :
    (Brain.randomize sf gs size).length = size := by
  simp [Brain.randomize]

theorem Inv_init (sf : ℚ → ℚ) (n : ℕ) (gs : ℕ → ℕ → ℚ × ℚ) (hn : 0 < n) :
    Inv sf (popInit sf n gs) := by
  refine ⟨?_, ?_, Or.inl rfl⟩
  · have hl : (popInit sf n gs).dots.length = n := by simp [popInit]
    intro hc
    rw [hc] at hl
    simp at hl
    omega
  · intro d hd
    simp only [popInit] at hd
    obtain ⟨i, -, rfl⟩ := List.mem_map.mp hd
    refine ⟨by simp [Dot.init, Brain.init, randomize_length], 0, ?_⟩
    rw [dot_init_eq_mkFresh]
    rfl

theorem Inv_update (sf : ℚ → ℚ) (p : Pop) (h : Inv sf p) : Inv sf (Pop.update sf p) := by
  obtain ⟨hne, hdots, hhead⟩ := h
  have hplen : 0 < p.dots.length := List.length_pos.mpr hne
  refine ⟨?_, ?_, ?_⟩
  · rw [pop_update_dots]
    intro hc
    rw [List.map_eq_nil_iff] at hc
    exact hne hc
  · intro d' hd'
    rw [pop_update_dots] at hd'
    obtain ⟨d, hd, rfl⟩ := List.mem_map.mp hd'
    obtain ⟨hlen, t, hT⟩ := hdots d hd
    rw [pop_update_min_step]
    refine ⟨by rw [evolve_directions]; exact hlen, t + 1, ?_⟩
    rw [evolve_directions, evolve_is_best, traj_succ, hT]
  · have hh : headOf (Pop.update sf p) = evolve sf p.min_step (headOf p) := by
      unfold headOf
      rw [pop_update_dots]
      exact getD_map_lt _ _ _ _ dfltDot hplen
    rcases hhead with h4 | ⟨t, ht1, ht2⟩
    · exact Or.inl h4
    · refine Or.inr ⟨t, ?_, ?_⟩ <;>
        rw [pop_update_min_step, hh, evolve_directions, evolve_is_best] <;>
        assumption

/-! ### Claim C8: fitness comparison lemmas -/

theorem calc_fitness_reached (d : Dot) :
    (Dot.calculate_fitness d).reached_goal = d.reached_goal := by
  simp only [Dot.calculate_fitness]
  split_ifs <;> rfl

theorem calc_fitness_brain (d : Dot) : (Dot.calculate_fitness d).brain = d.brain := by
  simp only [Dot.calculate_fitness]
  split_ifs <;> rfl

theorem calc_fitness_pos (d : Dot) : (Dot.calculate_fitness d).pos = d.pos := by
  simp only [Dot.calculate_fitness]
  split_ifs <;> rfl

theorem calc_fitness_val_reached (d : Dot) (h : d.reached_goal = true) :
    (Dot.calculate_fitness d).fitness = 1/16 + 1000 / ((d.brain.step : ℚ)) ^ 2 := by
  simp [Dot.calculate_fitness, h]

theorem calc_fitness_val_not (d : Dot) (h : d.reached_goal = false) :
    (Dot.calculate_fitness d).fitness = 1 / normSq (goal - d.pos) := by
  simp [Dot.calculate_fitness, h, Dot.fitnessDivisor]

theorem fitness_reached_gt (d : Dot) (h : d.reached_goal = true) (h1 : 1 ≤ d.brain.step) :
    1/16 < (Dot.calculate_fitness d).fitness := by
  rw [calc_fitness_val_reached d h]
  have hc : (1 : ℚ) ≤ (d.brain.step : ℚ) := by exact_mod_cast h1
  have : (0 : ℚ) < 1000 / ((d.brain.step : ℚ)) ^ 2 := by positivity
  linarith

theorem fitness_pos_of_DI (d : Dot) (h : DI 400 d) :
    0 < (Dot.calculate_fitness d).fitness := by
  cases hr : d.reached_goal
  · rw [calc_fitness_val_not d hr]
    have h16 := h.2.2.2 hr
    positivity
  · have := fitness_reached_gt d hr (h.2.2.1 hr)
    linarith

theorem fitness_le_of_not_reached (d : Dot) (h : DI 400 d) (hr : d.reached_goal = false) :
    (Dot.calculate_fitness d).fitness ≤ 1/16 := by
  rw [calc_fitness_val_not d hr]
  have h16 := h.2.2.2 hr
  rw [div_le_div_iff (by linarith) (by norm_num)]
  linarith

theorem reached_fitness_le (a b : ℕ) (ha : 1 ≤ a) (hb : 1 ≤ b)
    (h : (1 : ℚ)/16 + 1000 / ((a : ℚ)) ^ 2 ≤ 1/16 + 1000 / ((b : ℚ)) ^ 2) : b ≤ a := by
  have ha0 : (0 : ℚ) < (a : ℚ) := by exact_mod_cast Nat.lt_of_lt_of_le Nat.zero_lt_one ha
  have hb0 : (0 : ℚ) < (b : ℚ) := by exact_mod_cast Nat.lt_of_lt_of_le Nat.zero_lt_one hb
  have h' : 1000 / ((a : ℚ)) ^ 2 ≤ 1000 / ((b : ℚ)) ^ 2 := by linarith
  rw [div_le_div_iff (by positivity) (by positivity)] at h'
  have hsq : ((b : ℚ)) ^ 2 ≤ ((a : ℚ)) ^ 2 := by nlinarith
  have : (b : ℚ) ≤ (a : ℚ) := by nlinarith
  exact_mod_cast this

/-! ### Claim C8: best-index scan -/

theorem bestScan_spec (l : List Dot) : ∀ (i mi : ℕ) (mf : ℚ),
    mf ≤ (bestScan l i mi mf).2 ∧
    (∀ d ∈ l, d.fitness ≤ (bestScan l i mi mf).2) ∧
    ((bestScan l i mi mf).1 = mi ∧ (bestScan l i mi mf).2 = mf ∨
      ∃ j, j < l.length ∧ (bestScan l i mi mf).1 = i + j ∧
        (l.getD j dfltDot).fitness = (bestScan l i mi mf).2) := by
  induction l with
  | nil =>
      intro i mi mf
      exact ⟨le_refl _, by simp, Or.inl ⟨rfl, rfl⟩⟩
  | cons d ds ih =>
      intro i mi mf
      simp only [bestScan]
      split_ifs with hf
      · obtain ⟨h1, h2, h3⟩ := ih (i + 1) i d.fitness
        refine ⟨le_trans (le_of_lt hf) h1, ?_, ?_⟩
        · intro e he
          rcases List.mem_cons.mp he with rfl | he
          · exact h1
          · exact h2 e he
        · rcases h3 with ⟨hia, hib⟩ | ⟨j, hj, hja, hjb⟩
          · exact Or.inr ⟨0, by simp, by omega, by simpa using hib.symm⟩
          · exact Or.inr ⟨j + 1, by simpa using hj, by omega, by simpa using hjb⟩
      · obtain ⟨h1, h2, h3⟩ := ih (i + 1) mi mf
        refine ⟨h1, ?_, ?_⟩
        · intro e he
          rcases List.mem_cons.mp he with rfl | he
          · exact le_trans (not_lt.mp hf) h1
          · exact h2 e he
        · rcases h3 with ⟨hia, hib⟩ | ⟨j, hj, hja, hjb⟩
          · exact Or.inl ⟨hia, hib⟩
          · exact Or.inr ⟨j + 1, by simpa using hj, by omega, by simpa using hjb⟩

theorem bestIndex_lt (l : List Dot) (hne : l ≠ []) : bestIndex l < l.length := by
  obtain ⟨-, -, h3⟩ := bestScan_spec l 0 0 0
  rcases h3 with ⟨ha, -⟩ | ⟨j, hj, hja, -⟩
  · rw [bestIndex, ha]
    exact List.length_pos.mpr hne
  · rw [bestIndex, hja]
    simpa using hj

theorem best_fitness_ge (l : List Dot) (d : Dot) (hd : d ∈ l) (hpos : 0 < d.fitness) :
    d.fitness ≤ (l.getD (bestIndex l) dfltDot).fitness := by
  obtain ⟨-, h2, h3⟩ := bestScan_spec l 0 0 0
  have hle := h2 d hd
  rcases h3 with ⟨-, hb⟩ | ⟨j, hj, hja, hjb⟩
  · rw [hb] at hle
    linarith
  · rw [bestIndex, hja, Nat.zero_add, hjb]
    exact hle

/-! ### Claim C8: the generation boundary -/

theorem ns_min_step (sf : ℚ → ℚ) (O : Oracle) (q : Pop) :
    (Pop.natural_selection sf O q).min_step = q.set_best_dot.min_step := rfl

theorem mutate_babies_min_step (sf : ℚ → ℚ) (O : Oracle) (p : Pop) :
    (Pop.mutate_babies sf O p).min_step = p.min_step := rfl

theorem boundary_min_step_eq (sf : ℚ → ℚ) (O : Oracle) (p : Pop) :
    (Pop.boundary sf O p).min_step =
      ((Pop.calculate_fitness { p with dead_count := 0, goal_count := 0 }).set_best_dot).min_step :=
  rfl

theorem set_best_min_step (q : Pop) :
    q.set_best_dot.min_step =
      if (q.dots.getD (bestIndex q.dots) dfltDot).reached_goal = true
      then (q.dots.getD (bestIndex q.dots) dfltDot).brain.step
      else q.min_step := by
  simp only [Pop.set_best_dot]
  split_ifs <;> rfl

theorem getD_eq_getElem' {α : Type} (l : List α) (i : ℕ) (a : α) (h : i < l.length) :
    l.getD i a = l[i] := by
  rw [List.getD_eq_getElem?_getD, List.getElem?_eq_getElem h]
  rfl

theorem mkFresh_set_brain (ds ds2 : List (ℚ × ℚ)) (b : Bool) :
    ({ mkFresh ds b with brain := (⟨ds2, 0⟩ : Brain) } : Dot) = mkFresh ds2 b := rfl

theorem mkFresh_set_best (ds : List (ℚ × ℚ)) (b b2 : Bool) :
    ({ mkFresh ds b with is_best := b2 } : Dot) = mkFresh ds b2 := rfl

theorem mutate_fresh (sf : ℚ → ℚ) (rs : ℕ → ℚ) (gs : ℕ → ℚ × ℚ) (ds : List (ℚ × ℚ)) :
    Brain.mutate sf rs gs ⟨ds, 0⟩ =
      ⟨(List.range ds.length).map (fun i =>
          if rs i < mutationRate then sampleGene sf (gs i) else ds.getD i (0, 0)), 0⟩ := rfl

theorem mutate_length (sf : ℚ → ℚ) (rs : ℕ → ℚ) (gs : ℕ → ℚ × ℚ) (b : Brain) :
    (Brain.mutate sf rs gs b).directions.length = b.directions.length := by
  simp [Brain.mutate]

/-- At a terminal generation, the `HeadInv` trajectory witness pins down
the actual head state: it has reached the goal with cursor within the
budget. -/
theorem head_state (sf : ℚ → ℚ) (p : Pop) (hne : p.dots ≠ [])
    (hdots : ∀ d ∈ p.dots, InvDot sf p.min_step d) (hdead : p.all_dots_dead = true)
    (hrt : ∃ t,
      (traj sf p.min_step (mkFresh (headOf p).brain.directions (headOf p).is_best) t).reached_goal
        = true ∧
      (traj sf p.min_step (mkFresh (headOf p).brain.directions (headOf p).is_best) t).brain.step
        ≤ p.min_step) :
    (headOf p).reached_goal = true ∧ (headOf p).brain.step ≤ p.min_step := by
  have hplen : 0 < p.dots.length := List.length_pos.mpr hne
  have h0mem : headOf p ∈ p.dots := getD_mem hplen dfltDot
  obtain ⟨h0len, T, hT⟩ := hdots (headOf p) h0mem
  obtain ⟨t, htre, htstep⟩ := hrt
  obtain ⟨t1, ht1re, ht1pre, ht1min⟩ :=
    reach_first sf p.min_step (mkFresh (headOf p).brain.directions (headOf p).is_best) ⟨t, htre⟩
  have ht1t : t1 ≤ t := ht1min t htre
  have ht1step : (traj sf p.min_step (mkFresh (headOf p).brain.directions (headOf p).is_best)
      t1).brain.step ≤ p.min_step :=
    le_trans (traj_step_mono sf p.min_step _ ht1t) htstep
  have hfroz : ∀ k, traj sf p.min_step (mkFresh (headOf p).brain.directions (headOf p).is_best)
      (t1 + k) = traj sf p.min_step (mkFresh (headOf p).brain.directions (headOf p).is_best) t1 :=
    fun k => by rw [traj_add]; exact traj_reached_le sf p.min_step _ ht1re ht1step k
  have hTt1 : t1 ≤ T := by
    by_contra hc
    push_neg at hc
    have hact := ht1pre T hc
    have hterm := all_dead_mem hdead (headOf p) h0mem
    rw [← hT] at hterm
    rcases hterm with h | h
    · rw [hact.2] at h
      exact absurd h (by simp)
    · rw [hact.1] at h
      exact absurd h (by simp)
  have h0eq : traj sf p.min_step (mkFresh (headOf p).brain.directions (headOf p).is_best) t1
      = headOf p := by
    have hx := hfroz (T - t1)
    rw [show t1 + (T - t1) = T from by omega] at hx
    exact hx.symm.trans hT
  exact ⟨by rw [← h0eq]; exact ht1re, by rw [← h0eq]; exact ht1step⟩

/-- Core preservation result for the generation boundary: the budget never
increases, and the reachability invariant carries over to the new
generation. -/
theorem boundary_preserve (sf : ℚ → ℚ) (p : Pop) (O : Oracle) (hInv : Inv sf p)
    (hdead : p.all_dots_dead = true) (hO : O.valid) :
    (Pop.boundary sf O p).min_step ≤ p.min_step ∧ Inv sf (Pop.boundary sf O p) := by
  obtain ⟨hne, hdots, hhead⟩ := hInv
  have hplen : 0 < p.dots.length := List.length_pos.mpr hne
  set q := Pop.calculate_fitness { p with dead_count := 0, goal_count := 0 } with hqdef
  have hqdots : q.dots = p.dots.map Dot.calculate_fitness := rfl
  have hqmin : q.min_step = p.min_step := rfl
  have hqlen : q.dots.length = p.dots.length := by rw [hqdots, List.length_map]
  have hqne : q.dots ≠ [] := by
    rw [hqdots]
    intro hc
    rw [List.map_eq_nil_iff] at hc
    exact hne hc
  have hDI : ∀ d ∈ p.dots, DI 400 d := by
    intro d hd
    obtain ⟨hlen, t, hT⟩ := hdots d hd
    rw [← hT]
    exact DI_traj sf p.min_step 400 _ (by norm_num) (DI_fresh 400 _ _ hlen) t
  have hbi : bestIndex q.dots < q.dots.length := bestIndex_lt q.dots hqne
  have hbip : bestIndex q.dots < p.dots.length := hqlen ▸ hbi
  set bd := p.dots.getD (bestIndex q.dots) dfltDot with hbddef
  have hbmem : bd ∈ p.dots := getD_mem hbip dfltDot
  have hbq : q.dots.getD (bestIndex q.dots) dfltDot = Dot.calculate_fitness bd := by
    rw [hqdots]
    exact getD_map_lt _ _ _ _ dfltDot hbip
  have hbDI : DI 400 bd := hDI bd hbmem
  -- if the best dot reached the goal, its cursor is within the old budget
  have hkey : bd.reached_goal = true → bd.brain.step ≤ p.min_step := by
    intro hre
    rcases hhead with h400 | hrt
    · rw [h400]
      exact hbDI.1 ▸ hbDI.2.1
    · obtain ⟨h0re, h0step⟩ := head_state sf p hne hdots hdead hrt
      have h0mem : headOf p ∈ p.dots := getD_mem hplen dfltDot
      have h0DI := hDI _ h0mem
      have h0s1 : 1 ≤ (headOf p).brain.step := h0DI.2.2.1 h0re
      have hhf : 1/16 < (Dot.calculate_fitness (headOf p)).fitness :=
        fitness_reached_gt _ h0re h0s1
      have hqh : Dot.calculate_fitness (headOf p) ∈ q.dots := by
        rw [hqdots]
        exact List.mem_map_of_mem _ h0mem
      have hge : (Dot.calculate_fitness (headOf p)).fitness ≤
          (q.dots.getD (bestIndex q.dots) dfltDot).fitness :=
        best_fitness_ge q.dots _ hqh (by linarith)
      rw [hbq, calc_fitness_val_reached _ h0re, calc_fitness_val_reached _ hre] at hge
      have hbs1 : 1 ≤ bd.brain.step := hbDI.2.2.1 hre
      exact le_trans (reached_fitness_le (headOf p).brain.step bd.brain.step h0s1 hbs1 hge)
        h0step
  -- the new budget
  have hbnew : (Pop.boundary sf O p).min_step =
      if bd.reached_goal = true then bd.brain.step else p.min_step := by
    rw [boundary_min_step_eq, ← hqdef, set_best_min_step, hbq, calc_fitness_brain,
      calc_fitness_reached, hqmin]
  have hmono : (Pop.boundary sf O p).min_step ≤ p.min_step := by
    rw [hbnew]
    split_ifs with h
    · exact hkey h
    · exact le_refl _
  refine ⟨hmono, ?_⟩
  -- shape of the new cohort
  set r := Pop.natural_selection sf O q with hrdef
  have hPdef : Pop.boundary sf O p = Pop.mutate_babies sf O r := by
    rw [hrdef, hqdef]
    rfl
  have hns := natural_selection_dots sf O q
  rw [← hrdef] at hns
  have helite : ({ Dot.get_baby sf O.eliteG (q.dots.getD (bestIndex q.dots) dfltDot) with
      is_best := true } : Dot) = mkFresh bd.brain.directions true := by
    rw [hbq, get_baby_eq_mkFresh, calc_fitness_brain, mkFresh_set_best]
  have hqlenpos : 0 < q.dots.length := List.length_pos.mpr hqne
  have hrlen : r.dots.length = q.dots.length := by
    rw [hns]
    simp only [List.length_cons, List.length_map, List.length_range]
    omega
  have hrne : r.dots ≠ [] := by
    intro hc
    rw [hc] at hrlen
    simp at hrlen
    omega
  have hPlen : (Pop.boundary sf O p).dots.length = r.dots.length := by
    rw [hPdef]
    simp [Pop.mutate_babies]
  have hPmin : (Pop.boundary sf O p).min_step = r.min_step := by
    rw [hPdef, mutate_babies_min_step]
  -- selection totality
  have hfitpos : ∀ e ∈ q.dots, 0 < e.fitness := by
    intro e he
    rw [hqdots] at he
    obtain ⟨d, hd, rfl⟩ := List.mem_map.mp he
    exact fitness_pos_of_DI d (hDI d hd)
  have hsumpos : 0 < sumFitDots q.dots := by
    unfold sumFitDots
    apply List.sum_pos
    · intro x hx
      obtain ⟨e, he, rfl⟩ := List.mem_map.mp hx
      exact hfitpos e he
    · intro hc
      rw [List.map_eq_nil_iff] at hc
      exact hqne hc
  have hsel : ∀ i, ∃ e ∈ q.dots,
      selectFrom q.dots (sumFitDots q.dots) (O.selU i) = some e := by
    intro i
    obtain ⟨h0u, h1u⟩ := hO i
    have hr0 : (0 : ℚ) ≤ sumFitDots q.dots * O.selU i := mul_nonneg hsumpos.le h0u
    have hr1 : sumFitDots q.dots * O.selU i < sumFitDots q.dots := by nlinarith
    obtain ⟨e, he, hgo⟩ := selectGo_mem q.dots 0 _ hr0 (by simpa using hr1)
    exact ⟨e, he, hgo⟩
  -- every q dot has a 400-gene list
  have hqlen400 : ∀ e ∈ q.dots, e.brain.directions.length = 400 := by
    intro e he
    rw [hqdots] at he
    obtain ⟨d, hd, rfl⟩ := List.mem_map.mp he
    rw [calc_fitness_brain]
    exact (hDI d hd).1
  -- the head of the new cohort
  have hr0 : r.dots.getD 0 dfltDot = mkFresh bd.brain.directions true := by
    rw [hns, List.getD_cons_zero, helite]
  have hPhead : headOf (Pop.boundary sf O p) = mkFresh bd.brain.directions true := by
    unfold headOf
    rw [hPdef]
    rw [mutate_babies_getD_lt sf O r 0 (by omega)]
    simp only [if_pos rfl]
    exact hr0
  refine ⟨?_, ?_, ?_⟩
  · -- nonempty
    intro hc
    have := hPlen
    rw [hc] at this
    simp at this
    omega
  · -- InvDot for every new dot
    intro d' hd'
    obtain ⟨i, hi, hget⟩ := List.mem_iff_getElem.mp hd'
    have hilt : i < r.dots.length := by rw [← hPlen]; exact hi
    have hgetD : (Pop.boundary sf O p).dots.getD i dfltDot = d' := by
      rw [getD_eq_getElem' _ _ _ hi, hget]
    by_cases h0 : i = 0
    · subst h0
      have : d' = mkFresh bd.brain.directions true := by
        rw [← hgetD]
        exact hPhead
      subst this
      exact ⟨hbDI.1, 0, rfl⟩
    · -- a mutated baby
      obtain ⟨j, rfl⟩ : ∃ j, i = j + 1 := ⟨i - 1, by omega⟩
      have hjlt : j < q.dots.length - 1 := by omega
      have hrj : r.dots.getD (j + 1) dfltDot =
          Dot.get_baby sf (O.slotG j)
            ((selectFrom q.dots (sumFitDots q.dots) (O.selU j)).getD dfltDot) := by
        rw [hns, List.getD_cons_succ, getD_map_range _ _ _ _ hjlt]
      obtain ⟨e, he, hgo⟩ := hsel j
      have hbaby : r.dots.getD (j + 1) dfltDot = mkFresh e.brain.directions false := by
        rw [hrj, hgo]
        simp only [Option.getD_some]
        exact get_baby_eq_mkFresh _ _ _
      have hmut : (Pop.boundary sf O p).dots.getD (j + 1) dfltDot =
          { r.dots.getD (j + 1) dfltDot with
              brain := Brain.mutate sf (O.mutR (j + 1)) (O.mutG (j + 1))
                (r.dots.getD (j + 1) dfltDot).brain } := by
        rw [hPdef, mutate_babies_getD_lt sf O r (j + 1) hilt]
        simp
      have hd'eq : d' = mkFresh
          ((List.range e.brain.directions.length).map (fun k =>
            if O.mutR (j + 1) k < mutationRate then sampleGene sf (O.mutG (j + 1) k)
            else e.brain.directions.getD k (0, 0))) false := by
        rw [← hgetD, hmut, hbaby]
        rw [show (mkFresh e.brain.directions false).brain = (⟨e.brain.directions, 0⟩ : Brain)
          from rfl]
        rw [mutate_fresh, mkFresh_set_brain]
      refine ⟨?_, 0, ?_⟩
      · rw [hd'eq]
        simp only [mkFresh]
        rw [List.length_map, List.length_range]
        exact hqlen400 e he
      · rw [hd'eq]
        rfl
  · -- HeadInv for the new state
    by_cases hre : bd.reached_goal = true
    · right
      have hM' : (Pop.boundary sf O p).min_step = bd.brain.step := by
        rw [hbnew, if_pos hre]
      obtain ⟨bdlen, Tb, hTb⟩ := hdots bd hbmem
      have hex : ∃ tt,
          (traj sf p.min_step (mkFresh bd.brain.directions bd.is_best) tt).reached_goal
            = true := ⟨Tb, by rw [hTb]; exact hre⟩
      obtain ⟨t1, ht1re, ht1pre, ht1min⟩ := reach_first sf p.min_step _ hex
      have ht1T : t1 ≤ Tb := ht1min Tb (by rw [hTb]; exact hre)
      have hbs_le : bd.brain.step ≤ p.min_step := hkey hre
      have hstep_t1 :
          (traj sf p.min_step (mkFresh bd.brain.directions bd.is_best) t1).brain.step ≤
            bd.brain.step := by
        have := traj_step_mono sf p.min_step (mkFresh bd.brain.directions bd.is_best) ht1T
        rw [hTb] at this
        exact this
      have hfroz : ∀ k, traj sf p.min_step (mkFresh bd.brain.directions bd.is_best) (t1 + k)
          = traj sf p.min_step (mkFresh bd.brain.directions bd.is_best) t1 :=
        fun k => by
          rw [traj_add]
          exact traj_reached_le sf p.min_step _ ht1re (le_trans hstep_t1 hbs_le) k
      have hbd_eq : traj sf p.min_step (mkFresh bd.brain.directions bd.is_best) t1 = bd := by
        have hx := hfroz (Tb - t1)
        rw [show t1 + (Tb - t1) = Tb from by omega] at hx
        exact hx.symm.trans hTb
      have htrans := traj_transfer sf p.min_step bd.brain.step
        (mkFresh bd.brain.directions bd.is_best) t1 ht1re ht1pre
        (by rw [hbd_eq])
        (fun i hi => traj_step_mono sf p.min_step _ (le_of_lt hi))
      have hBt1 : traj sf bd.brain.step (mkFresh bd.brain.directions bd.is_best) t1 = bd := by
        rw [htrans t1 (le_refl _), hbd_eq]
      have hh1 : (headOf (Pop.boundary sf O p)).brain.directions = bd.brain.directions := by
        rw [hPhead]
        rfl
      have hh2 : (headOf (Pop.boundary sf O p)).is_best = true := by
        rw [hPhead]
        rfl
      refine ⟨t1, ?_, ?_⟩
      · rw [hM', hh1, hh2]
        show (traj sf bd.brain.step
          { mkFresh bd.brain.directions bd.is_best with is_best := true } t1).reached_goal = true
        rw [traj_is_best_set]
        show (traj sf bd.brain.step (mkFresh bd.brain.directions bd.is_best) t1).reached_goal
          = true
        rw [hBt1]
        exact hre
      · rw [hM', hh1, hh2]
        show (traj sf bd.brain.step
            { mkFresh bd.brain.directions bd.is_best with is_best := true } t1).brain.step ≤
          bd.brain.step
        rw [traj_is_best_set]
        show (traj sf bd.brain.step (mkFresh bd.brain.directions bd.is_best) t1).brain.step ≤
          bd.brain.step
        rw [hBt1]
    · -- no reassignment: the old budget must still be 400
      left
      have hM' : (Pop.boundary sf O p).min_step = p.min_step := by
        rw [hbnew, if_neg hre]
      rw [hM']
      rcases hhead with h400 | hrt
      · exact h400
      · exfalso
        obtain ⟨h0re, h0step⟩ := head_state sf p hne hdots hdead hrt
        have h0mem : headOf p ∈ p.dots := getD_mem hplen dfltDot
        have h0DI := hDI _ h0mem
        have h0s1 : 1 ≤ (headOf p).brain.step := h0DI.2.2.1 h0re
        have hhf : 1/16 < (Dot.calculate_fitness (headOf p)).fitness :=
          fitness_reached_gt _ h0re h0s1
        have hqh : Dot.calculate_fitness (headOf p) ∈ q.dots := by
          rw [hqdots]
          exact List.mem_map_of_mem _ h0mem
        have hge : (Dot.calculate_fitness (headOf p)).fitness ≤
            (q.dots.getD (bestIndex q.dots) dfltDot).fitness :=
          best_fitness_ge q.dots _ hqh (by linarith)
        have hbre : bd.reached_goal = false := by
          cases hbb : bd.reached_goal
          · rfl
          · exact absurd hbb hre
        have hle16 : (Dot.calculate_fitness bd).fitness ≤ 1/16 :=
          fitness_le_of_not_reached bd hbDI hbre
        rw [hbq] at hge
        linarith

theorem Inv_reachable (sf : ℚ → ℚ) (p : Pop) (h : Reachable sf p) : Inv sf p := by
  induction h with
  | init n hn gs => exact Inv_init sf n gs hn
  | step hp hstep ih =>
      rcases hstep with ⟨hdead, O, hOv, rfl⟩ | ⟨-, rfl⟩
      · exact (boundary_preserve sf _ O ih hdead hOv).2
      · exact Inv_update sf _ ih

/-- Claim C8, confirmed.  `min_step` is initialized to the genome length
400, and across every step of the main loop from a reachable state it is
monotonically non-increasing: a per-tick update leaves it unchanged, and
the generation boundary either leaves it unchanged (when the generation's
best agent has not ReachedGoal — the only situation in which it is not
reassigned) or reassigns it to the best agent's recorded cursor, which is
never above its previous value.  The key invariant is that after any
tightening the elite clone deterministically re-reaches the goal at
exactly the budget cursor, so the generation's best fitness always comes
from an agent whose cursor is within the current budget. -/
theorem C8_min_step_budget (sf : ℚ → ℚ) (p p' : Pop)
    (hp : Reachable sf p) (hs : stepRel sf p p') :
    (∀ (n : ℕ) (gs : ℕ → ℕ → ℚ × ℚ), (popInit sf n gs).min_step = 400) ∧
    p'.min_step ≤ p.min_step ∧
    (p.all_dots_dead = false → p'.min_step = p.min_step) ∧
    (∀ O : Oracle, p' = Pop.boundary sf O p →
      ((Pop.calculate_fitness { p with dead_count := 0, goal_count := 0 }).dots.getD
          (bestIndex (Pop.calculate_fitness { p with dead_count := 0, goal_count := 0 }).dots)
          dfltDot).reached_goal = false →
      p'.min_step = p.min_step) := by
  have hInv := Inv_reachable sf p hp
  refine ⟨fun n gs => rfl, ?_, ?_, ?_⟩
  · rcases hs with ⟨hdead, O, hOv, rfl⟩ | ⟨-, rfl⟩
    · exact (boundary_preserve sf p O hInv hdead hOv).1
    · exact le_of_eq (pop_update_min_step sf p)
  · intro hnd
    rcases hs with ⟨hdead, -⟩ | ⟨-, rfl⟩
    · rw [hdead] at hnd
      exact absurd hnd (by simp)
    · exact pop_update_min_step sf p
  · intro O hpe hnre
    rw [hpe, boundary_min_step_eq, set_best_min_step,
      if_neg (by rw [hnre]; exact Bool.false_ne_true)]
    rfl

/-- Concrete gaussian-draw streams for the C8 witness. -/
def gsW : ℕ → ℕ → ℚ × ℚ := fun _ _ => (3, 4)

/-- Witness for C8, at the freshly initialized one-agent population and a
per-tick update step. -/
theorem C8_witness :
    (∀ (n : ℕ) (gs : ℕ → ℕ → ℚ × ℚ), (popInit zeroSqrt n gs).min_step = 400) ∧
    (Pop.update zeroSqrt (popInit zeroSqrt 1 gsW)).min_step ≤
      (popInit zeroSqrt 1 gsW).min_step ∧
    ((popInit zeroSqrt 1 gsW).all_dots_dead = false →
      (Pop.update zeroSqrt (popInit zeroSqrt 1 gsW)).min_step =
        (popInit zeroSqrt 1 gsW).min_step) ∧
    (∀ O : Oracle,
      Pop.update zeroSqrt (popInit zeroSqrt 1 gsW) =
        Pop.boundary zeroSqrt O (popInit zeroSqrt 1 gsW) →
      ((Pop.calculate_fitness
          { popInit zeroSqrt 1 gsW with dead_count := 0, goal_count := 0 }).dots.getD
          (bestIndex (Pop.calculate_fitness
            { popInit zeroSqrt 1 gsW with dead_count := 0, goal_count := 0 }).dots)
          dfltDot).reached_goal = false →
      (Pop.update zeroSqrt (popInit zeroSqrt 1 gsW)).min_step =
        (popInit zeroSqrt 1 gsW).min_step) :=
  C8_min_step_budget zeroSqrt (popInit zeroSqrt 1 gsW)
    (Pop.update zeroSqrt (popInit zeroSqrt 1 gsW))
    (Reachable.init 1 Nat.one_pos gsW) (Or.inr ⟨rfl, rfl⟩)

end GeneticDots
